import Mathlib

/-!
Resolver store of `src/index.js`.

A shallow embedding of the two in-memory collections `users` and `posts` and of the six
resolvers of `root` (`user`, `addPost`, `likePost`, `addUser`, `addCommentToPost`,
`followUser`).

Modelling decisions.

* JavaScript objects are shared by reference.  The only objects that are ever referenced from
  more than one place are the user objects and the post objects, and every one of them sits in
  `users` (resp. `posts`) from its creation on; both arrays only grow by `push`.  A reference to a
  user or post object is therefore modelled by its position in the array, and a mutation of the
  object by an update of the array at that position.
* The follow lists `abonnement` / `abonnes` hold id strings at rest, but the `user` resolver
  overwrites them with arrays of user objects.  Their elements are therefore `Value`s: a string or
  a reference to a user object.  `Array.prototype.includes` and `===` never identify a string with
  an object.
* Arguments are the values the GraphQL layer hands to the resolvers: `ID!` and `String!` arguments
  are strings, the nullable `comment: String` is an `Option String`.
* `String(n)` for a non-negative integer `n` is its decimal representation, `toString n`.
-/

namespace SocialGraph

/-- A JavaScript value as it occurs in the fields compared with `===` / `includes`:
a string, or a reference to a user object (its position in `users`). -/
inductive Value where
  | str (s : String)
  | userRef (i : Nat)
  deriving DecidableEq, Repr

/-- The `author` of a comment: the literal `{ id, name }` built by `likePost`, or the user object
itself (a reference) as stored by `addCommentToPost`. -/
inductive CommentAuthor where
  | proj (id name : String)
  | userRef (i : Nat)
  deriving DecidableEq, Repr

/-- A comment object `{ id, content, author }`. -/
structure Comment where
  id : String
  content : String
  author : CommentAuthor
  deriving DecidableEq, Repr

/-- A post object `{ id, title, content, author, likes, comments }`. -/
structure Post where
  id : String
  title : String
  content : String
  author : Value
  likes : List String
  comments : List Comment
  deriving DecidableEq, Repr

/-- A user object.  `posts` is `none` while the property is absent (the seed users before any
read); otherwise it is an array of references to post objects. -/
structure User where
  id : String
  name : String
  email : String
  abonnement : List Value
  abonnes : List Value
  posts : Option (List Nat)
  deriving DecidableEq, Repr

/-- The process-global state: the two arrays `users` and `posts`. -/
structure Store where
  users : List User
  posts : List Post
  deriving DecidableEq, Repr

/-- The seed data: `const users = [...]` and `const posts = [...]`. -/
def seed : Store where
  users :=
    [ { id := "0", name := "Alice", email := "alice@example.com",
        abonnement := [Value.str "1"], abonnes := [Value.str "1"], posts := none },
      { id := "1", name := "Bob", email := "bob@example.com",
        abonnement := [Value.str "0"], abonnes := [Value.str "0"], posts := none },
      { id := "2", name := "Charlie", email := "charlie@example.com",
        abonnement := [Value.str "0"], abonnes := [Value.str "0"], posts := none } ]
  posts :=
    [ { id := "0", title := "Premier Post", content := "Contenu du premier post",
        author := Value.str "0", likes := ["1"],
        comments := [ { id := "0", content := "Super!",
                        author := CommentAuthor.proj "1" "Bob" } ] } ]

/-- Array method `arr.find(p)`: the first element satisfying `p`, together with its position (the reference
to the object found); `none` stands for `undefined`. -/
def find {α : Type} (p : α → Bool) : List α → Option (Nat × α)
  | [] => none
  | a :: l => if p a then some (0, a) else (find p l).map (fun r => (r.1 + 1, r.2))

/-- Array method `arr.filter(p)` on an array of objects: the references (positions) of the elements
satisfying `p`, in array order. -/
def filterRefs {α : Type} (p : α → Bool) (l : List α) : List Nat :=
  (l.enum.filter (fun x => p x.2)).map Prod.fst

/-- In-place mutation of the object at position `i`. -/
def mutate {α : Type} (l : List α) (i : Nat) (f : α → α) : List α :=
  match l[i]? with
  | some a => l.set i (f a)
  | none => l

/-- Array method `arr.includes(x)`. -/
def includes {α : Type} [DecidableEq α] (l : List α) (x : α) : Bool :=
  decide (x ∈ l)

/-- JavaScript truthiness of the optional string argument `comment`: absent and `""` are falsy. -/
def truthy : Option String → Bool
  | none => false
  | some s => decide (s ≠ "")

/-- Resolver `root.user`: returns the reference to the user found (or `none` for `null`) and the store
after the three assignments to the user object. -/
def user (st : Store) (id : String) : Option Nat × Store :=
  match find (fun u => u.id == id) st.users with
  | none => (none, st)
  | some (i, user) =>
    -- user.posts = posts.filter(post => post.author === user.id)
    let users1 := mutate st.users i (fun u =>
      { u with posts := some (filterRefs (fun post => post.author == Value.str user.id) st.posts) })
    -- user.abonnes = users.filter(u => u.abonnement.includes(user.id))
    let abonnes := filterRefs (fun x => includes x.abonnement (Value.str user.id)) users1
    let users2 := mutate users1 i (fun u => { u with abonnes := abonnes.map Value.userRef })
    -- user.abonnement = users.filter(u => user.abonnement.includes(u.id))
    let users3 := mutate users2 i (fun u =>
      let abonnement := filterRefs (fun x => includes u.abonnement (Value.str x.id)) users2
      { u with abonnement := abonnement.map Value.userRef })
    (some i, { st with users := users3 })

/-- Resolver `root.addPost`: returns the reference to the new post. -/
def addPost (st : Store) (title content authorId : String) : Nat × Store :=
  let newPost : Post :=
    { id := toString st.posts.length, title := title, content := content,
      author := Value.str authorId, likes := [], comments := [] }
  (st.posts.length, { st with posts := st.posts ++ [newPost] })

/-- Resolver `root.likePost`: returns `post`, the result of the `find` on `posts` (a reference, or `none`
for `undefined`), whatever the outcome of the test `post && user`. -/
def likePost (st : Store) (postId userId : String) (comment : Option String) :
    Option Nat × Store :=
  match find (fun post => post.id == postId) st.posts,
        find (fun user => user.id == userId) st.users with
  | some (pi, post), some (_, user) =>
    let posts1 :=
      if !(includes post.likes user.id) then
        mutate st.posts pi (fun p => { p with likes := p.likes ++ [user.id] })
      else st.posts
    let posts2 :=
      if truthy comment then
        mutate posts1 pi (fun p =>
          { p with comments := p.comments ++
              [ { id := toString (p.comments.length + 1),
                  content := comment.getD "",
                  author := CommentAuthor.proj user.id user.name } ] })
      else posts1
    (some pi, { st with posts := posts2 })
  | some (pi, _), none => (some pi, st)
  | none, _ => (none, st)

/-- Resolver `root.addUser`: returns the reference to the new user. -/
def addUser (st : Store) (name email : String) : Nat × Store :=
  let newUser : User :=
    { id := toString st.users.length, name := name, email := email,
      abonnement := [], abonnes := [], posts := some [] }
  (st.users.length, { st with users := st.users ++ [newUser] })

/-- Resolver `root.addCommentToPost`: returns the new comment (or `none` for `null`). -/
def addCommentToPost (st : Store) (postId content authorId : String) :
    Option Comment × Store :=
  match find (fun post => post.id == postId) st.posts,
        find (fun user => user.id == authorId) st.users with
  | some (pi, post), some (ai, _) =>
    let newComment : Comment :=
      { id := toString (post.comments.length + 1), content := content,
        author := CommentAuthor.userRef ai }
    (some newComment,
      { st with posts := mutate st.posts pi (fun p =>
          { p with comments := p.comments ++ [newComment] }) })
  | _, _ => (none, st)

/-- Resolver `root.followUser`: returns the reference to the followed user (or `none` for `null`).
`follower` and `followed` may be the same object; the second `push` acts on the array as left by
the first. -/
def followUser (st : Store) (followerId followedId : String) : Option Nat × Store :=
  match find (fun user => user.id == followerId) st.users,
        find (fun user => user.id == followedId) st.users with
  | some (i, follower), some (j, followed) =>
    if !(includes follower.abonnement (Value.str followed.id)) then
      let users1 := mutate st.users i (fun u =>
        { u with abonnement := u.abonnement ++ [Value.str followed.id] })
      let users2 := mutate users1 j (fun u =>
        { u with abonnes := u.abonnes ++ [Value.str follower.id] })
      (some j, { st with users := users2 })
    else (some j, st)
  | _, _ => (none, st)

/-- The operations the GraphQL layer can dispatch to `root`, with their arguments. -/
inductive Op where
  | user (id : String)
  | addPost (title content authorId : String)
  | likePost (postId userId : String) (comment : Option String)
  | addUser (name email : String)
  | addCommentToPost (postId content authorId : String)
  | followUser (followerId followedId : String)
  deriving DecidableEq, Repr

/-- The only query with a resolver is `user`; the five others are mutations. -/
def Op.isMutation : Op → Bool
  | Op.user _ => false
  | _ => true

/-- The store after one operation. -/
def step (st : Store) : Op → Store
  | Op.user id => (user st id).2
  | Op.addPost title content authorId => (addPost st title content authorId).2
  | Op.likePost postId userId comment => (likePost st postId userId comment).2
  | Op.addUser name email => (addUser st name email).2
  | Op.addCommentToPost postId content authorId => (addCommentToPost st postId content authorId).2
  | Op.followUser followerId followedId => (followUser st followerId followedId).2

/-- The store after a sequence of operations, run one at a time. -/
def run (st : Store) (ops : List Op) : Store :=
  ops.foldl step st

/-- The stores the process can be in: those obtained from the seed data by a sequence of
operations. -/
def Reachable (st : Store) : Prop :=
  ∃ ops : List Op, run seed ops = st

/-- The stores obtained from the seed data by mutation operations only. -/
def MutReachable (st : Store) : Prop :=
  ∃ ops : List Op, (∀ op ∈ ops, op.isMutation = true) ∧ run seed ops = st

/-- Repeated `likePost` calls for one post/user pair, one call per element of `comments` (the
`comment` argument of that call). -/
def likePostRepeat (st : Store) (postId userId : String) : List (Option String) → Store
  | [] => st
  | c :: cs => likePostRepeat (likePost st postId userId c).2 postId userId cs

/-- The user object as `root.user` leaves it. -/
def resolved (st : Store) (u : User) : User :=
  { u with
    posts := some (filterRefs (fun post => post.author == Value.str u.id) st.posts)
    abonnes :=
      (filterRefs (fun x => includes x.abonnement (Value.str u.id)) st.users).map Value.userRef
    abonnement :=
      (filterRefs (fun x => includes u.abonnement (Value.str x.id)) st.users).map Value.userRef }

/-- The post object as `root.likePost` leaves it when both the post and the user are found. -/
def liked (post : Post) (u : User) (comment : Option String) : Post :=
  { post with
    likes := if includes post.likes u.id then post.likes else post.likes ++ [u.id]
    comments :=
      if truthy comment then
        post.comments ++ [ { id := toString (post.comments.length + 1),
                             content := comment.getD "",
                             author := CommentAuthor.proj u.id u.name } ]
      else post.comments }

/-- The number a list of decimal digit characters denotes, most significant digit first. -/
def decimalValue (ds : List Char) : Nat :=
  ds.foldl (fun acc c => acc * 10 + (c.toNat - 48)) 0

/-- The follow lists are inverse relations, the users being addressed by id the way the
resolvers do (`users.find(user => user.id === id)`): for ids `A` and `B` that name stored
users, `B` is in the `abonnement` of user `A` exactly when `A` is in the `abonnes` of user `B`. -/
def InverseById (users : List User) : Prop :=
  ∀ (A B : String) (i j : Nat) (a b : User),
    find (fun user => user.id == A) users = some (i, a) →
    find (fun user => user.id == B) users = some (j, b) →
    (Value.str B ∈ a.abonnement ↔ Value.str A ∈ b.abonnes)

/-- The follow lists are inverse relations over all stored user objects. -/
def InverseOnObjects (users : List User) : Prop :=
  ∀ a ∈ users, ∀ b ∈ users, (Value.str b.id ∈ a.abonnement ↔ Value.str a.id ∈ b.abonnes)

/-- The shape of the comment ids of one post: the comment at position `k` has id `String(k + 1)`,
the id it got from `String(post.comments.length + 1)` when it was pushed, except that a comment
at position 0 may have id `String(0)`, as the seeded comment has. -/
def CommentIdsByPosition (cs : List Comment) : Prop :=
  ∀ (k : Nat) (c : Comment), cs[k]? = some c →
    c.id = toString (k + 1) ∨ (k = 0 ∧ c.id = toString 0)

/-! ## Arrays: `find`, `filter`, in-place mutation -/

theorem find_eq_none_iff {α : Type} (p : α → Bool) (l : List α) :
    find p l = none ↔ ∀ a ∈ l, p a = false := by
  induction l with
  | nil => simp [find]
  | cons a l ih =>
    by_cases h : p a = true
    · simp [find, h]
    · simp [find, h, ih]

theorem find_eq_some {α : Type} (p : α → Bool) (l : List α) (i : Nat) (a : α)
    (h : find p l = some (i, a)) :
    l[i]? = some a ∧ p a = true ∧ ∀ j b, j < i → l[j]? = some b → p b = false := by
  induction l generalizing i with
  | nil => simp [find] at h
  | cons x l ih =>
    by_cases hx : p x = true
    · simp only [find, hx, if_true, Option.some.injEq, Prod.mk.injEq] at h
      obtain ⟨rfl, rfl⟩ := h
      simp [hx]
    · simp only [find, hx, Bool.false_eq_true, if_false, Option.map_eq_some'] at h
      obtain ⟨⟨k, b⟩, hk, hkb⟩ := h
      simp only [Prod.mk.injEq] at hkb
      obtain ⟨rfl, rfl⟩ := hkb
      obtain ⟨h1, h2, h3⟩ := ih k hk
      refine ⟨by simpa using h1, h2, ?_⟩
      intro j c hj hc
      cases j with
      | zero =>
        simp only [List.getElem?_cons_zero, Option.some.injEq] at hc
        subst hc
        simpa using hx
      | succ j =>
        simp only [List.getElem?_cons_succ] at hc
        exact h3 j c (by omega) hc

theorem find_isSome_iff {α : Type} (p : α → Bool) (l : List α) :
    (∃ r, find p l = some r) ↔ ∃ a ∈ l, p a = true := by
  constructor
  · rintro ⟨⟨i, a⟩, h⟩
    obtain ⟨h1, h2, _⟩ := find_eq_some p l i a h
    exact ⟨a, List.getElem?_mem h1, h2⟩
  · rintro ⟨a, ha, hp⟩
    cases h : find p l with
    | none =>
      rw [find_eq_none_iff] at h
      rw [h a ha] at hp
      cases hp
    | some r => exact ⟨r, rfl⟩

@[simp] theorem mutate_nil {α : Type} (i : Nat) (f : α → α) : mutate [] i f = [] := by
  simp [mutate]

@[simp] theorem mutate_cons_zero {α : Type} (a : α) (l : List α) (f : α → α) :
    mutate (a :: l) 0 f = f a :: l := by
  simp [mutate]

@[simp] theorem mutate_cons_succ {α : Type} (a : α) (l : List α) (i : Nat) (f : α → α) :
    mutate (a :: l) (i + 1) f = a :: mutate l i f := by
  simp only [mutate, List.getElem?_cons_succ]
  cases l[i]? <;> simp

@[simp] theorem length_mutate {α : Type} (l : List α) (i : Nat) (f : α → α) :
    (mutate l i f).length = l.length := by
  unfold mutate
  cases l[i]? <;> simp

theorem getElem?_mutate {α : Type} (l : List α) (i j : Nat) (f : α → α) :
    (mutate l i f)[j]? = if i = j then (l[j]?).map f else l[j]? := by
  induction l generalizing i j with
  | nil => simp
  | cons a l ih =>
    cases i with
    | zero => cases j <;> simp
    | succ i =>
      cases j with
      | zero => simp
      | succ j => simp [ih]

theorem getElem?_mutate_self {α : Type} (l : List α) (i : Nat) (f : α → α) :
    (mutate l i f)[i]? = (l[i]?).map f := by
  simp [getElem?_mutate]

theorem getElem?_mutate_ne {α : Type} (l : List α) (i j : Nat) (f : α → α) (h : i ≠ j) :
    (mutate l i f)[j]? = l[j]? := by
  simp [getElem?_mutate, h]

theorem mutate_id {α : Type} (l : List α) (i : Nat) (f : α → α)
    (h : ∀ a, l[i]? = some a → f a = a) : mutate l i f = l := by
  apply List.ext_getElem?
  intro j
  rw [getElem?_mutate]
  split
  · next hij =>
    subst hij
    cases hl : l[i]? with
    | none => rfl
    | some a => simp [h a hl]
  · rfl

theorem mem_mutate {α : Type} (l : List α) (i : Nat) (f : α → α) (b : α)
    (h : b ∈ mutate l i f) : b ∈ l ∨ ∃ a ∈ l, b = f a := by
  obtain ⟨j, hj⟩ := List.mem_iff_getElem?.mp h
  rw [getElem?_mutate] at hj
  split at hj
  · obtain ⟨a, ha, rfl⟩ := Option.map_eq_some'.mp hj
    exact Or.inr ⟨a, List.getElem?_mem ha, rfl⟩
  · exact Or.inl (List.getElem?_mem hj)

/-- A mutation that leaves the searched key alone does not change what `find` finds, up to the
mutation itself. -/
theorem find_mutate {α : Type} (p : α → Bool) (l : List α) (i : Nat) (f : α → α)
    (hp : ∀ a, p (f a) = p a) :
    find p (mutate l i f) = (find p l).map (fun r => (r.1, if r.1 = i then f r.2 else r.2)) := by
  induction l generalizing i with
  | nil => simp [find]
  | cons a l ih =>
    cases i with
    | zero =>
      by_cases h : p a = true
      · simp [find, hp, h]
      · simp [find, hp, h, Option.map_map, Function.comp_def]
    | succ i =>
      by_cases h : p a = true
      · simp [find, h]
      · simp [find, h, ih, Option.map_map, Function.comp_def]

theorem find_mutate_pos {α : Type} (p : α → Bool) (l : List α) (i : Nat) (f : α → α)
    (hp : ∀ a, p (f a) = p a) :
    (find p (mutate l i f)).map Prod.fst = (find p l).map Prod.fst := by
  rw [find_mutate p l i f hp, Option.map_map]
  rfl

/-- Dereferencing the result of a `filter` gives the elements satisfying the predicate, in array
order. -/
theorem filterRefs_deref {α : Type} (p : α → Bool) (l : List α) :
    (filterRefs p l).map (fun i => l[i]?) = (l.filter p).map some := by
  unfold filterRefs
  rw [List.map_map]
  have h : ∀ x ∈ l.enum.filter (fun x => p x.2),
      ((fun i => l[i]?) ∘ Prod.fst) x = (some ∘ Prod.snd) x := by
    intro x hx
    exact List.mem_enum_iff_getElem?.mp (List.mem_of_mem_filter hx)
  rw [List.map_congr_left h, ← List.map_map]
  have h2 : (fun x : Nat × α => p x.2) = p ∘ Prod.snd := rfl
  rw [h2, ← List.filter_map, List.enum_map_snd]

theorem mem_filterRefs {α : Type} (p : α → Bool) (l : List α) (i : Nat) :
    i ∈ filterRefs p l ↔ ∃ a, l[i]? = some a ∧ p a = true := by
  unfold filterRefs
  simp only [List.mem_map, List.mem_filter, List.mem_enum_iff_getElem?]
  constructor
  · rintro ⟨⟨j, a⟩, ⟨h1, h2⟩, rfl⟩
    exact ⟨a, h1, h2⟩
  · rintro ⟨a, h1, h2⟩
    exact ⟨(i, a), ⟨h1, h2⟩, rfl⟩

/-- Filtering by a predicate that the mutation does not disturb selects the same references. -/
theorem filterRefs_congr {α : Type} (p q : α → Bool) (l l' : List α)
    (h : l.map p = l'.map q) : filterRefs p l = filterRefs q l' := by
  unfold filterRefs List.enum
  generalize 0 = n
  induction l generalizing l' n with
  | nil =>
    cases l' with
    | nil => rfl
    | cons b l' => simp at h
  | cons a l ih =>
    cases l' with
    | nil => simp at h
    | cons b l' =>
      simp only [List.map_cons, List.cons.injEq] at h
      simp only [List.enumFrom_cons, List.filter_cons, h.1]
      split
      · simp only [List.map_cons, List.cons.injEq, true_and]
        exact ih l' h.2 (n + 1)
      · exact ih l' h.2 (n + 1)

theorem map_mutate {α β : Type} (g : α → β) (l : List α) (i : Nat) (f : α → α)
    (h : ∀ a, l[i]? = some a → g (f a) = g a) : (mutate l i f).map g = l.map g := by
  apply List.ext_getElem?
  intro j
  simp only [List.getElem?_map, getElem?_mutate]
  split
  · next hij =>
    subst hij
    cases hl : l[i]? with
    | none => rfl
    | some a => simp [h a hl]
  · rfl

theorem mutate_eq_set {α : Type} (l : List α) (i : Nat) (f : α → α) (a : α)
    (h : l[i]? = some a) : mutate l i f = l.set i (f a) := by
  simp [mutate, h]

theorem getElem?_set_self_of_some {α : Type} (l : List α) (i : Nat) (a b : α)
    (h : l[i]? = some a) : (l.set i b)[i]? = some b := by
  have hlt : i < l.length := by
    rcases Nat.lt_or_ge i l.length with h1 | h1
    · exact h1
    · rw [List.getElem?_eq_none h1] at h
      cases h
  simp [List.getElem?_set, hlt]

theorem set_eq_self_of_some {α : Type} (l : List α) (i : Nat) (a : α)
    (h : l[i]? = some a) : l.set i a = l := by
  have hm := mutate_id l i (fun _ => a) (fun b hb => by rw [h] at hb; exact Option.some.inj hb)
  rw [mutate_eq_set l i _ a h] at hm
  exact hm

/-! ## The `user` resolver -/

theorem user_not_found (st : Store) (id : String)
    (h : find (fun u => u.id == id) st.users = none) : user st id = (none, st) := by
  simp [user, h]

theorem mutate_mutate {α : Type} (l : List α) (i : Nat) (f g : α → α) :
    mutate (mutate l i f) i g = mutate l i (fun a => g (f a)) := by
  apply List.ext_getElem?
  intro j
  simp only [getElem?_mutate]
  split
  · simp [Option.map_map, Function.comp_def]
  · rfl

theorem user_found (st : Store) (id : String) (i : Nat) (u : User)
    (h : find (fun u => u.id == id) st.users = some (i, u)) :
    user st id = (some i, { st with users := st.users.set i (resolved st u) }) := by
  obtain ⟨hi, _, _⟩ := find_eq_some _ _ _ _ h
  simp only [user, h]
  rw [mutate_mutate, mutate_mutate, mutate_eq_set _ _ _ _ hi]
  have e1 : ∀ (f : User → User) (q : User → Bool), (∀ a, q (f a) = q a) →
      filterRefs q (mutate st.users i f) = filterRefs q st.users := by
    intro f q hq
    apply filterRefs_congr
    apply map_mutate
    intro a _
    exact hq a
  simp only [resolved]
  congr 3
  rw [mutate_mutate]
  congr 2
  · exact e1 _ _ (fun _ => rfl)
  · exact e1 _ _ (fun _ => rfl)

/-- The posts array is not touched by `root.user`. -/
theorem user_posts (st : Store) (id : String) : (user st id).2.posts = st.posts := by
  cases h : find (fun u => u.id == id) st.users with
  | none => rw [user_not_found st id h]
  | some r => rw [user_found st id r.1 r.2 h]

/-- C1. `root.user`: when no user has the id, the result is `null` and the store is unchanged;
when a user has the id, the result is that user (same id, name and email), `posts` is left
untouched, and the `posts` field of the returned user holds references to exactly the posts
whose `author` equals the id, in store order. -/
theorem user_returns_user_with_posts (st : Store) (id : String) :
    ((∀ u ∈ st.users, u.id ≠ id) → user st id = (none, st)) ∧
    ((∃ u ∈ st.users, u.id = id) →
      ∃ i u u', (user st id).1 = some i ∧ st.users[i]? = some u ∧ u.id = id ∧
        (user st id).2.users[i]? = some u' ∧
        u'.id = id ∧ u'.name = u.name ∧ u'.email = u.email ∧
        (user st id).2.posts = st.posts ∧
        ∃ refs, u'.posts = some refs ∧
          refs.map (fun r => (user st id).2.posts[r]?) =
            (st.posts.filter (fun post => decide (post.author = Value.str id))).map some) := by
  constructor
  · intro h
    apply user_not_found
    rw [find_eq_none_iff]
    intro a ha
    simpa using h a ha
  · rintro ⟨a, ha, haid⟩
    obtain ⟨⟨i, u⟩, hfind⟩ := (find_isSome_iff (fun u => u.id == id) st.users).mpr
      ⟨a, ha, by simpa using haid⟩
    obtain ⟨hi, hu, _⟩ := find_eq_some _ _ _ _ hfind
    have huid : u.id = id := by simpa using hu
    refine ⟨i, u, resolved st u, ?_, hi, huid, ?_, huid, rfl, rfl, user_posts st id,
      filterRefs (fun post : Post => post.author == Value.str u.id) st.posts, rfl, ?_⟩
    · rw [user_found st id i u hfind]
    · rw [user_found st id i u hfind]
      exact getElem?_set_self_of_some _ _ _ _ hi
    · rw [user_posts, filterRefs_deref, huid]
      congr 2

theorem user_returns_user_with_posts_witness :
    user seed "7" = (none, seed) ∧
    ∃ i u u', (user seed "0").1 = some i ∧ seed.users[i]? = some u ∧ u.id = "0" ∧
        (user seed "0").2.users[i]? = some u' ∧
        u'.id = "0" ∧ u'.name = u.name ∧ u'.email = u.email ∧
        (user seed "0").2.posts = seed.posts ∧
        ∃ refs, u'.posts = some refs ∧
          refs.map (fun r => (user seed "0").2.posts[r]?) =
            (seed.posts.filter (fun post => decide (post.author = Value.str "0"))).map some :=
  ⟨(user_returns_user_with_posts seed "7").1 (by decide),
   (user_returns_user_with_posts seed "0").2 (by decide)⟩

/-- C2. `root.user` on an existing id (the claim restricts to stores whose `abonnement` fields
hold ids; the statement holds for every store): the returned user has `abonnes` equal to the
references to all stored users whose pre-call `abonnement` contains the id, and `abonnement`
equal to the references to all stored users whose id is in the user's own pre-call
`abonnement`, both in store order; the stored `abonnes` of the user is not consulted:
replacing it by any list before the call changes neither the result nor the final store. -/
theorem user_follow_lists (st : Store) (id : String) (i : Nat) (u : User)
    (hfind : find (fun u => u.id == id) st.users = some (i, u)) :
    ∃ u', (user st id).1 = some i ∧ (user st id).2.users[i]? = some u' ∧
      (∃ refs : List Nat, u'.abonnes = refs.map Value.userRef ∧
        refs.map (fun r => st.users[r]?) =
          (st.users.filter (fun x => decide (Value.str id ∈ x.abonnement))).map some) ∧
      (∃ refs : List Nat, u'.abonnement = refs.map Value.userRef ∧
        refs.map (fun r => st.users[r]?) =
          (st.users.filter (fun x => decide (Value.str x.id ∈ u.abonnement))).map some) ∧
      ∀ l : List Value,
        user { st with users := mutate st.users i (fun x => { x with abonnes := l }) } id =
          user st id := by
  obtain ⟨hi, hu, _⟩ := find_eq_some _ _ _ _ hfind
  have huid : u.id = id := by simpa using hu
  refine ⟨resolved st u, ?_, ?_, ⟨_, rfl, ?_⟩, ⟨_, rfl, ?_⟩, ?_⟩
  · rw [user_found st id i u hfind]
  · rw [user_found st id i u hfind]
    exact getElem?_set_self_of_some _ _ _ _ hi
  · rw [filterRefs_deref, huid]
    rfl
  · rw [filterRefs_deref]
    rfl
  · intro l
    have hfind2 : find (fun u => u.id == id)
        (mutate st.users i (fun x => { x with abonnes := l })) =
        some (i, { u with abonnes := l }) := by
      have hm := find_mutate (fun u : User => u.id == id) st.users i
        (fun x => { x with abonnes := l }) (fun _ => rfl)
      rw [hm, hfind]
      simp
    rw [user_found st id i u hfind, user_found _ id i _ hfind2]
    have e1 : ∀ q : User → Bool, (∀ a : User, q { a with abonnes := l } = q a) →
        filterRefs q (mutate st.users i (fun x => { x with abonnes := l })) =
          filterRefs q st.users := by
      intro q hq
      apply filterRefs_congr
      apply map_mutate
      intro a _
      exact hq a
    simp only [resolved, mutate_eq_set _ _ _ _ hi, List.set_set]
    rw [mutate_eq_set _ _ _ _ hi] at e1
    congr 5
    · exact e1 _ (fun _ => rfl)
    · exact e1 _ (fun _ => rfl)

theorem user_follow_lists_witness :
    ∃ u', (user seed "0").1 = some 0 ∧ (user seed "0").2.users[0]? = some u' ∧
      (∃ refs : List Nat, u'.abonnes = refs.map Value.userRef ∧
        refs.map (fun r => seed.users[r]?) =
          (seed.users.filter (fun x => decide (Value.str "0" ∈ x.abonnement))).map some) ∧
      (∃ refs : List Nat, u'.abonnement = refs.map Value.userRef ∧
        refs.map (fun r => seed.users[r]?) =
          (seed.users.filter (fun x => decide (Value.str x.id ∈
            [Value.str "1"]))).map some) ∧
      ∀ l : List Value,
        user { seed with users := mutate seed.users 0 (fun x => { x with abonnes := l }) } "0" =
          user seed "0" :=
  user_follow_lists seed "0" 0
    { id := "0", name := "Alice", email := "alice@example.com",
      abonnement := [Value.str "1"], abonnes := [Value.str "1"], posts := none } (by decide)

/-! ## `followUser` -/

theorem followUser_not_found (st : Store) (followerId followedId : String)
    (h : find (fun user => user.id == followerId) st.users = none ∨
      find (fun user => user.id == followedId) st.users = none) :
    followUser st followerId followedId = (none, st) := by
  unfold followUser
  rcases h with h | h
  · rw [h]
  · rw [h]
    cases find (fun user => user.id == followerId) st.users <;> rfl

theorem followUser_found_old (st : Store) (followerId followedId : String) (i j : Nat)
    (a b : User) (hA : find (fun user => user.id == followerId) st.users = some (i, a))
    (hB : find (fun user => user.id == followedId) st.users = some (j, b))
    (hmem : Value.str b.id ∈ a.abonnement) :
    followUser st followerId followedId = (some j, st) := by
  simp [followUser, hA, hB, includes, hmem]

theorem followUser_found_new (st : Store) (followerId followedId : String) (i j : Nat)
    (a b : User) (hA : find (fun user => user.id == followerId) st.users = some (i, a))
    (hB : find (fun user => user.id == followedId) st.users = some (j, b))
    (hmem : Value.str b.id ∉ a.abonnement) :
    followUser st followerId followedId =
      (some j, Store.mk
        (mutate (mutate st.users i (fun u => { u with abonnement := u.abonnement ++ [Value.str b.id] }))
          j (fun u => { u with abonnes := u.abonnes ++ [Value.str a.id] })) st.posts) := by
  simp [followUser, hA, hB, includes, hmem]

/-- What `find` by id sees after the two pushes of `followUser`. -/
theorem find_after_follow (users : List User) (key : String) (i j k : Nat) (x : User)
    (vi vj : Value) (h : find (fun user => user.id == key) users = some (k, x)) :
    ∃ x', find (fun user => user.id == key)
        (mutate (mutate users i (fun u => { u with abonnement := u.abonnement ++ [vi] }))
          j (fun u => { u with abonnes := u.abonnes ++ [vj] })) = some (k, x') ∧
      x'.id = x.id ∧ x'.name = x.name ∧ x'.email = x.email ∧ x'.posts = x.posts ∧
      x'.abonnement = (if k = i then x.abonnement ++ [vi] else x.abonnement) ∧
      x'.abonnes = (if k = j then x.abonnes ++ [vj] else x.abonnes) := by
  have h1 := find_mutate (fun user : User => user.id == key)
    (mutate users i (fun u => { u with abonnement := u.abonnement ++ [vi] })) j
    (fun u => { u with abonnes := u.abonnes ++ [vj] }) (fun _ => rfl)
  have h2 := find_mutate (fun user : User => user.id == key) users i
    (fun u => { u with abonnement := u.abonnement ++ [vi] }) (fun _ => rfl)
  rw [h1, h2, h]
  refine ⟨_, rfl, ?_⟩
  by_cases hi : k = i <;> by_cases hj : k = j <;> simp_all

/-- What `followUser` guarantees on any store when both users are found: afterwards the
followed id is in the `abonnement` of the follower; the follower id is in the `abonnes` of the
followed user when the relation is newly created or when it was already recorded there. -/
theorem followUser_postcondition (st : Store) (followerId followedId : String) (i j : Nat)
    (a b : User) (hA : find (fun user => user.id == followerId) st.users = some (i, a))
    (hB : find (fun user => user.id == followedId) st.users = some (j, b)) :
    ∃ a' b', (followUser st followerId followedId).2.users[i]? = some a' ∧
      (followUser st followerId followedId).2.users[j]? = some b' ∧
      Value.str followedId ∈ a'.abonnement ∧
      (Value.str followedId ∉ a.abonnement ∨ Value.str followerId ∈ b.abonnes →
        Value.str followerId ∈ b'.abonnes) := by
  obtain ⟨hi, ha, -⟩ := find_eq_some _ _ _ _ hA
  obtain ⟨hj, hb, -⟩ := find_eq_some _ _ _ _ hB
  have haid : a.id = followerId := by simpa using ha
  have hbid : b.id = followedId := by simpa using hb
  by_cases hmem : Value.str b.id ∈ a.abonnement
  · rw [followUser_found_old st _ _ i j a b hA hB hmem]
    refine ⟨a, b, hi, hj, hbid ▸ hmem, ?_⟩
    rintro (h | h)
    · exact absurd (hbid ▸ hmem) h
    · exact h
  · rw [followUser_found_new st _ _ i j a b hA hB hmem]
    obtain ⟨a', hA', -, -, -, -, ha', -⟩ :=
      find_after_follow st.users followerId i j i a (Value.str b.id) (Value.str a.id) hA
    obtain ⟨b', hB', -, -, -, -, -, hb'⟩ :=
      find_after_follow st.users followedId i j j b (Value.str b.id) (Value.str a.id) hB
    obtain ⟨hi', -, -⟩ := find_eq_some _ _ _ _ hA'
    obtain ⟨hj', -, -⟩ := find_eq_some _ _ _ _ hB'
    refine ⟨a', b', hi', hj', ?_, fun _ => ?_⟩
    · rw [ha', ← hbid]
      simp
    · rw [hb', ← haid]
      simp

/-- C4. `followUser` is idempotent: a second call with the same arguments returns the same
result and leaves exactly the store left by the first call, so it pushes nothing more onto
`abonnement` or `abonnes`. -/
theorem followUser_idempotent (st : Store) (followerId followedId : String) :
    followUser (followUser st followerId followedId).2 followerId followedId =
      followUser st followerId followedId := by
  cases hA : find (fun user => user.id == followerId) st.users with
  | none =>
    rw [followUser_not_found st _ _ (Or.inl hA)]
    exact followUser_not_found st _ _ (Or.inl hA)
  | some ra =>
    cases hB : find (fun user => user.id == followedId) st.users with
    | none =>
      rw [followUser_not_found st _ _ (Or.inr hB)]
      exact followUser_not_found st _ _ (Or.inr hB)
    | some rb =>
      obtain ⟨i, a⟩ := ra
      obtain ⟨j, b⟩ := rb
      by_cases hmem : Value.str b.id ∈ a.abonnement
      · rw [followUser_found_old st _ _ i j a b hA hB hmem]
        exact followUser_found_old st _ _ i j a b hA hB hmem
      · rw [followUser_found_new st _ _ i j a b hA hB hmem]
        obtain ⟨a', hA', -, -, -, -, ha', -⟩ :=
          find_after_follow st.users followerId i j i a (Value.str b.id) (Value.str a.id) hA
        obtain ⟨b', hB', hb', -⟩ :=
          find_after_follow st.users followedId i j j b (Value.str b.id) (Value.str a.id) hB
        apply followUser_found_old _ _ _ i j a' b' hA' hB'
        rw [ha', hb']
        simp

/-- C3. On the seed store itself (reached by no operation at all) users "2" and "0" both exist,
and `followUser(followerId = "2", followedId = "0")` returns user "0" and changes nothing:
"0" is already in the seeded `abonnement` of "2", so neither push runs, while the seeded
`abonnes` of "0" is `["1"]`; afterwards "2" is not in the `abonnes` of "0". -/
theorem followUser_seed_abonnes_missing :
    MutReachable seed ∧
    (∃ u ∈ seed.users, u.id = "2") ∧ (∃ u ∈ seed.users, u.id = "0") ∧
    followUser seed "2" "0" = (some 0, seed) ∧
    ((followUser seed "2" "0").2.users[2]?).map (fun u => u.abonnement) =
      some [Value.str "0"] ∧
    ((followUser seed "2" "0").2.users[0]?).map (fun u => u.abonnes) = some [Value.str "1"] ∧
    ((followUser seed "2" "0").2.users[0]?).map
      (fun u => decide (Value.str "2" ∈ u.abonnes)) = some false := by
  refine ⟨⟨[], by simp, rfl⟩, by decide, by decide, by decide, by decide, by decide, by decide⟩

/-- C5. `followUser` returns `null` exactly when the follower id or the followed id matches no
stored user, and then the store is unchanged; when both are found it returns the followed user
(the first user whose id is `followedId`, with its id, name and email), whether or not the
relation was newly created. -/
theorem followUser_result (st : Store) (followerId followedId : String) :
    ((followUser st followerId followedId).1 = none ↔
      ((∀ u ∈ st.users, u.id ≠ followerId) ∨ (∀ u ∈ st.users, u.id ≠ followedId))) ∧
    ((followUser st followerId followedId).1 = none →
      (followUser st followerId followedId).2 = st) ∧
    (∀ i a j b, find (fun user => user.id == followerId) st.users = some (i, a) →
      find (fun user => user.id == followedId) st.users = some (j, b) →
      (followUser st followerId followedId).1 = some j ∧
      ∃ b', (followUser st followerId followedId).2.users[j]? = some b' ∧
        b'.id = followedId ∧ b'.name = b.name ∧ b'.email = b.email) := by
  have hnone : ∀ key : String, find (fun user : User => user.id == key) st.users = none ↔
      ∀ u ∈ st.users, u.id ≠ key := by
    intro key
    rw [find_eq_none_iff]
    simp
  have hfound : ∀ i a j b, find (fun user => user.id == followerId) st.users = some (i, a) →
      find (fun user => user.id == followedId) st.users = some (j, b) →
      (followUser st followerId followedId).1 = some j ∧
      ∃ b', (followUser st followerId followedId).2.users[j]? = some b' ∧
        b'.id = followedId ∧ b'.name = b.name ∧ b'.email = b.email := by
    intro i a j b hA hB
    obtain ⟨hj, hb, _⟩ := find_eq_some _ _ _ _ hB
    have hbid : b.id = followedId := by simpa using hb
    by_cases hmem : Value.str b.id ∈ a.abonnement
    · rw [followUser_found_old st _ _ i j a b hA hB hmem]
      exact ⟨rfl, b, hj, hbid, rfl, rfl⟩
    · rw [followUser_found_new st _ _ i j a b hA hB hmem]
      obtain ⟨b', hB', hb1, hb2, hb3, -⟩ :=
        find_after_follow st.users followedId i j j b (Value.str b.id) (Value.str a.id) hB
      obtain ⟨hj', -, -⟩ := find_eq_some _ _ _ _ hB'
      exact ⟨rfl, b', hj', by rw [hb1, hbid], hb2, hb3⟩
  have hnull : (followUser st followerId followedId).1 = none →
      find (fun user => user.id == followerId) st.users = none ∨
      find (fun user => user.id == followedId) st.users = none := by
    intro h
    cases hA : find (fun user => user.id == followerId) st.users with
    | none => exact Or.inl rfl
    | some ra =>
      cases hB : find (fun user => user.id == followedId) st.users with
      | none => exact Or.inr rfl
      | some rb =>
        rw [(hfound ra.1 ra.2 rb.1 rb.2 hA hB).1] at h
        cases h
  refine ⟨⟨?_, ?_⟩, ?_, hfound⟩
  · intro h
    rcases hnull h with h | h
    · exact Or.inl ((hnone _).mp h)
    · exact Or.inr ((hnone _).mp h)
  · intro h
    have h' : find (fun user => user.id == followerId) st.users = none ∨
        find (fun user => user.id == followedId) st.users = none := by
      rcases h with h | h
      · exact Or.inl ((hnone _).mpr h)
      · exact Or.inr ((hnone _).mpr h)
    rw [followUser_not_found st _ _ h']
  · intro h
    rw [followUser_not_found st _ _ (hnull h)]

theorem followUser_result_witness :
    (followUser seed "9" "0").1 = none ∧ (followUser seed "9" "0").2 = seed ∧
    ((followUser seed "2" "1").1 = some 1 ∧
      ∃ b', (followUser seed "2" "1").2.users[1]? = some b' ∧
        b'.id = "1" ∧ b'.name = "Bob" ∧ b'.email = "bob@example.com") :=
  ⟨(followUser_result seed "9" "0").1.mpr (Or.inl (by decide)),
   (followUser_result seed "9" "0").2.1
     ((followUser_result seed "9" "0").1.mpr (Or.inl (by decide))),
   (followUser_result seed "2" "1").2.2 2
     { id := "2", name := "Charlie", email := "charlie@example.com",
       abonnement := [Value.str "0"], abonnes := [Value.str "0"], posts := none } 1
     { id := "1", name := "Bob", email := "bob@example.com",
       abonnement := [Value.str "0"], abonnes := [Value.str "0"], posts := none }
     (by decide) (by decide)⟩

/-! ## `addPost` -/

/-- C6. `addPost` returns (a reference to) a post whose id is the decimal string of the
pre-call number of posts, with the given title and content, `author` the given `authorId` as a
string whether or not a user has that id, and empty `likes` and `comments`; afterwards `posts`
is the old array with that post appended and `users` is unchanged. -/
theorem addPost_appends (st : Store) (title content authorId : String) :
    (addPost st title content authorId).2.posts[(addPost st title content authorId).1]? =
      some { id := toString st.posts.length, title := title, content := content,
             author := Value.str authorId, likes := [], comments := [] } ∧
    (addPost st title content authorId).2.posts =
      st.posts ++ [{ id := toString st.posts.length, title := title, content := content,
                     author := Value.str authorId, likes := [], comments := [] }] ∧
    (addPost st title content authorId).2.users = st.users := by
  simp [addPost]

/-! ## `likePost` -/

theorem likePost_post_not_found (st : Store) (postId userId : String) (comment : Option String)
    (h : find (fun post => post.id == postId) st.posts = none) :
    likePost st postId userId comment = (none, st) := by
  simp [likePost, h]

theorem likePost_user_not_found (st : Store) (postId userId : String) (comment : Option String)
    (pi : Nat) (post : Post) (hP : find (fun post => post.id == postId) st.posts = some (pi, post))
    (hU : find (fun user => user.id == userId) st.users = none) :
    likePost st postId userId comment = (some pi, st) := by
  simp [likePost, hP, hU]

theorem likePost_found (st : Store) (postId userId : String) (comment : Option String)
    (pi ui : Nat) (post : Post) (u : User)
    (hP : find (fun post => post.id == postId) st.posts = some (pi, post))
    (hU : find (fun user => user.id == userId) st.users = some (ui, u)) :
    likePost st postId userId comment =
      (some pi, Store.mk st.users (st.posts.set pi (liked post u comment))) := by
  obtain ⟨hpi, -, -⟩ := find_eq_some _ _ _ _ hP
  simp only [likePost, hP, hU, liked]
  by_cases hl : includes post.likes u.id = true <;> by_cases hc : truthy comment = true
  · simp [hl, hc, mutate_eq_set _ _ _ _ hpi]
  · simp only [hl, hc, Bool.not_true, Bool.false_eq_true, if_false, if_true]
    exact congrArg _ (congrArg _ (set_eq_self_of_some _ _ _ hpi).symm)
  · have h1 := getElem?_set_self_of_some st.posts pi post
      { post with likes := post.likes ++ [u.id] } hpi
    simp [hl, hc, mutate_eq_set _ _ _ _ hpi, mutate_eq_set _ _ _ _ h1]
  · simp [hl, hc, mutate_eq_set _ _ _ _ hpi]

/-! ## `addCommentToPost` -/

theorem addCommentToPost_not_found (st : Store) (postId content authorId : String)
    (h : find (fun post => post.id == postId) st.posts = none ∨
      find (fun user => user.id == authorId) st.users = none) :
    addCommentToPost st postId content authorId = (none, st) := by
  unfold addCommentToPost
  rcases h with h | h
  · rw [h]
  · rw [h]
    cases find (fun post => post.id == postId) st.posts <;> rfl

theorem addCommentToPost_found (st : Store) (postId content authorId : String)
    (pi ai : Nat) (post : Post) (author : User)
    (hP : find (fun post => post.id == postId) st.posts = some (pi, post))
    (hA : find (fun user => user.id == authorId) st.users = some (ai, author)) :
    addCommentToPost st postId content authorId =
      (some { id := toString (post.comments.length + 1), content := content,
              author := CommentAuthor.userRef ai },
       Store.mk st.users (st.posts.set pi { post with comments := post.comments ++
         [{ id := toString (post.comments.length + 1), content := content,
            author := CommentAuthor.userRef ai }] })) := by
  obtain ⟨hpi, -, -⟩ := find_eq_some _ _ _ _ hP
  simp [addCommentToPost, hP, hA, mutate_eq_set _ _ _ _ hpi]

/-! ## Frame lemmas: which array an operation leaves alone -/

theorem followUser_posts (st : Store) (followerId followedId : String) :
    (followUser st followerId followedId).2.posts = st.posts := by
  unfold followUser
  split
  · split <;> rfl
  · rfl

theorem likePost_users (st : Store) (postId userId : String) (comment : Option String) :
    (likePost st postId userId comment).2.users = st.users := by
  unfold likePost
  split <;> rfl

theorem addCommentToPost_users (st : Store) (postId content authorId : String) :
    (addCommentToPost st postId content authorId).2.users = st.users := by
  unfold addCommentToPost
  split <;> rfl

/-! ## Reachable stores -/

theorem run_append (st : Store) (ops : List Op) (op : Op) :
    run st (ops ++ [op]) = step (run st ops) op := by
  simp [run, List.foldl_append]

theorem reachable_seed : Reachable seed := ⟨[], rfl⟩

theorem reachable_step (st : Store) (op : Op) (h : Reachable st) : Reachable (step st op) := by
  obtain ⟨ops, rfl⟩ := h
  exact ⟨ops ++ [op], run_append seed ops op⟩

/-- Induction over the stores reachable from the seed data. -/
theorem reachable_induction (P : Store → Prop) (hseed : P seed)
    (hstep : ∀ st op, P st → P (step st op)) : ∀ st, Reachable st → P st := by
  have h : ∀ (ops : List Op) (st0 : Store), P st0 → P (run st0 ops) := by
    intro ops
    induction ops with
    | nil => intro st0 h0; exact h0
    | cons op ops ih => intro st0 h0; exact ih (step st0 op) (hstep st0 op h0)
  rintro st ⟨ops, rfl⟩
  exact h ops seed hseed

theorem reachable_likePostRepeat (st : Store) (postId userId : String)
    (comments : List (Option String)) (h : Reachable st) :
    Reachable (likePostRepeat st postId userId comments) := by
  induction comments generalizing st with
  | nil => exact h
  | cons c cs ih => exact ih _ (reachable_step st (Op.likePost postId userId c) h)

/-- Every operation keeps the `likes` of every post free of duplicates. -/
theorem step_likes_nodup (st : Store) (op : Op) (h : ∀ p ∈ st.posts, p.likes.Nodup) :
    ∀ p ∈ (step st op).posts, p.likes.Nodup := by
  cases op with
  | user id => simpa [step, user_posts] using h
  | addPost title content authorId =>
    intro p hp
    simp only [step, addPost, List.mem_append, List.mem_singleton] at hp
    rcases hp with hp | rfl
    · exact h p hp
    · exact List.nodup_nil
  | likePost postId userId comment =>
    intro p hp
    simp only [step] at hp
    cases hP : find (fun post => post.id == postId) st.posts with
    | none =>
      rw [likePost_post_not_found st _ _ _ hP] at hp
      exact h p hp
    | some rp =>
      obtain ⟨pi, post⟩ := rp
      cases hU : find (fun user => user.id == userId) st.users with
      | none =>
        rw [likePost_user_not_found st _ _ _ pi post hP hU] at hp
        exact h p hp
      | some ru =>
        obtain ⟨ui, u⟩ := ru
        rw [likePost_found st _ _ _ pi ui post u hP hU] at hp
        obtain ⟨hpi, -, -⟩ := find_eq_some _ _ _ _ hP
        have hpost := h post (List.getElem?_mem hpi)
        rcases List.mem_or_eq_of_mem_set hp with hp | rfl
        · exact h p hp
        · simp only [liked, includes]
          split
          · exact hpost
          · next hn =>
            rw [List.nodup_append]
            refine ⟨hpost, List.nodup_singleton _, ?_⟩
            intro x hx
            simp only [List.mem_singleton]
            rintro rfl
            exact hn (by simpa using hx)
  | addUser name email => simpa [step, addUser] using h
  | addCommentToPost postId content authorId =>
    intro p hp
    simp only [step] at hp
    cases hP : find (fun post => post.id == postId) st.posts with
    | none =>
      rw [addCommentToPost_not_found st _ _ _ (Or.inl hP)] at hp
      exact h p hp
    | some rp =>
      obtain ⟨pi, post⟩ := rp
      cases hU : find (fun user => user.id == authorId) st.users with
      | none =>
        rw [addCommentToPost_not_found st _ _ _ (Or.inr hU)] at hp
        exact h p hp
      | some ru =>
        obtain ⟨ai, author⟩ := ru
        rw [addCommentToPost_found st _ _ _ pi ai post author hP hU] at hp
        obtain ⟨hpi, -, -⟩ := find_eq_some _ _ _ _ hP
        rcases List.mem_or_eq_of_mem_set hp with hp | rfl
        · exact h p hp
        · exact h post (List.getElem?_mem hpi)
  | followUser followerId followedId => simpa [step, followUser_posts] using h

/-- After a `likePost` call on an existing pair, the same lookup finds the post at the same
position, and the user's id is among its `likes`. -/
theorem likePost_find_after (st : Store) (postId userId : String) (comment : Option String)
    (pi ui : Nat) (post : Post) (u : User)
    (hP : find (fun post => post.id == postId) st.posts = some (pi, post))
    (hU : find (fun user => user.id == userId) st.users = some (ui, u)) :
    find (fun post => post.id == postId) (likePost st postId userId comment).2.posts =
      some (pi, liked post u comment) ∧ userId ∈ (liked post u comment).likes := by
  obtain ⟨hpi, -, -⟩ := find_eq_some _ _ _ _ hP
  obtain ⟨-, hu, -⟩ := find_eq_some _ _ _ _ hU
  have huid : u.id = userId := by simpa using hu
  constructor
  · rw [likePost_found st _ _ _ pi ui post u hP hU]
    have hm := find_mutate (fun post : Post => post.id == postId) st.posts pi
      (fun p => liked p u comment) (fun _ => rfl)
    rw [mutate_eq_set _ _ _ _ hpi, hP] at hm
    simpa using hm
  · simp only [liked, includes]
    split
    · next h => rw [← huid]; simpa using h
    · simp [huid]

theorem likePostRepeat_find_after (st : Store) (postId userId : String)
    (comments : List (Option String)) (pi ui : Nat) (post : Post) (u : User)
    (hP : find (fun post => post.id == postId) st.posts = some (pi, post))
    (hU : find (fun user => user.id == userId) st.users = some (ui, u))
    (hne : comments ≠ []) :
    ∃ post', find (fun post => post.id == postId)
        (likePostRepeat st postId userId comments).posts = some (pi, post') ∧
      userId ∈ post'.likes := by
  induction comments generalizing st post with
  | nil => exact absurd rfl hne
  | cons c cs ih =>
    obtain ⟨h1, h2⟩ := likePost_find_after st postId userId c pi ui post u hP hU
    cases cs with
    | nil => exact ⟨_, h1, h2⟩
    | cons c' cs' =>
      have hU' : find (fun user => user.id == userId) (likePost st postId userId c).2.users =
          some (ui, u) := by rw [likePost_users]; exact hU
      exact ih (likePost st postId userId c).2 _ h1 hU' (by simp)

/-- C7. In every store reachable from the seed data no post has the same id twice in its
`likes`; and from such a store, after any number n >= 1 of `likePost` calls for an existing
post/user pair (with arbitrary `comment` arguments), the user's id occurs exactly once in the
`likes` of that post. -/
theorem likes_no_duplicates (st : Store) (hst : Reachable st) :
    (∀ p ∈ st.posts, p.likes.Nodup) ∧
    ∀ (postId userId : String) (pi ui : Nat) (post : Post) (u : User)
      (comments : List (Option String)),
      find (fun post => post.id == postId) st.posts = some (pi, post) →
      find (fun user => user.id == userId) st.users = some (ui, u) →
      comments ≠ [] →
      ∃ post', (likePostRepeat st postId userId comments).posts[pi]? = some post' ∧
        post'.id = postId ∧ post'.likes.count userId = 1 := by
  have hinv : ∀ st, Reachable st → ∀ p ∈ st.posts, p.likes.Nodup :=
    reachable_induction _ (by decide) step_likes_nodup
  refine ⟨hinv st hst, ?_⟩
  intro postId userId pi ui post u comments hP hU hne
  obtain ⟨post', hfind, hmem⟩ :=
    likePostRepeat_find_after st postId userId comments pi ui post u hP hU hne
  obtain ⟨hpi, hid, -⟩ := find_eq_some _ _ _ _ hfind
  refine ⟨post', hpi, by simpa using hid, ?_⟩
  have hnd := hinv _ (reachable_likePostRepeat st postId userId comments hst) post'
    (List.getElem?_mem hpi)
  exact List.count_eq_one_of_mem hnd hmem

theorem likes_no_duplicates_witness :
    (∀ p ∈ (run seed [Op.addUser "Dora" "dora@example.com", Op.likePost "0" "3" none]).posts,
      p.likes.Nodup) ∧
    ∃ post', (likePostRepeat
          (run seed [Op.addUser "Dora" "dora@example.com", Op.likePost "0" "3" none])
          "0" "3" [some "Bravo", none, some ""]).posts[0]? = some post' ∧
        post'.id = "0" ∧ post'.likes.count "3" = 1 :=
  ⟨(likes_no_duplicates _ ⟨_, rfl⟩).1,
   (likes_no_duplicates _ ⟨_, rfl⟩).2 "0" "3" 0 3
     { id := "0", title := "Premier Post", content := "Contenu du premier post",
       author := Value.str "0", likes := ["1", "3"],
       comments := [ { id := "0", content := "Super!",
                       author := CommentAuthor.proj "1" "Bob" } ] }
     { id := "3", name := "Dora", email := "dora@example.com",
       abonnement := [], abonnes := [], posts := some [] }
     [some "Bravo", none, some ""] (by decide) (by decide) (by decide)⟩

theorem find_none_of_ne {α : Type} (key : α → String) (l : List α) (k : String)
    (h : ∀ a ∈ l, key a ≠ k) : find (fun a => key a == k) l = none := by
  rw [find_eq_none_iff]
  intro a ha
  simpa using h a ha

/-- C8. `likePost` on an existing post/user pair: with a non-empty `comment` the `comments` of
the post grow by exactly one comment, whose content is the given string, whose id is the decimal
string of the pre-call comment count plus one and whose author is the `{id, name}` projection of
the liking user; with `comment` absent or empty the `comments` of the post are unchanged. -/
theorem likePost_comment (st : Store) (postId userId : String) (pi ui : Nat) (post : Post)
    (u : User) (hP : find (fun post => post.id == postId) st.posts = some (pi, post))
    (hU : find (fun user => user.id == userId) st.users = some (ui, u)) :
    u.id = userId ∧
    (∀ c : String, c ≠ "" →
      ∃ post', (likePost st postId userId (some c)).2.posts[pi]? = some post' ∧
        post'.comments = post.comments ++
          [{ id := toString (post.comments.length + 1), content := c,
             author := CommentAuthor.proj u.id u.name }]) ∧
    (∀ comment : Option String, comment = none ∨ comment = some "" →
      ∃ post', (likePost st postId userId comment).2.posts[pi]? = some post' ∧
        post'.comments = post.comments) := by
  obtain ⟨hpi, -, -⟩ := find_eq_some _ _ _ _ hP
  obtain ⟨-, hu, -⟩ := find_eq_some _ _ _ _ hU
  refine ⟨by simpa using hu, ?_, ?_⟩
  · intro c hc
    refine ⟨liked post u (some c), ?_, ?_⟩
    · rw [likePost_found st _ _ _ pi ui post u hP hU]
      exact getElem?_set_self_of_some _ _ _ _ hpi
    · simp [liked, truthy, hc]
  · intro comment hc
    refine ⟨liked post u comment, ?_, ?_⟩
    · rw [likePost_found st _ _ _ pi ui post u hP hU]
      exact getElem?_set_self_of_some _ _ _ _ hpi
    · rcases hc with rfl | rfl <;> simp [liked, truthy]

theorem likePost_comment_witness :
    "2" = "2" ∧
    (∀ c : String, c ≠ "" →
      ∃ post', (likePost seed "0" "2" (some c)).2.posts[0]? = some post' ∧
        post'.comments = [{ id := "0", content := "Super!",
                            author := CommentAuthor.proj "1" "Bob" }] ++
          [{ id := toString (1 + 1), content := c,
             author := CommentAuthor.proj "2" "Charlie" }]) ∧
    (∀ comment : Option String, comment = none ∨ comment = some "" →
      ∃ post', (likePost seed "0" "2" comment).2.posts[0]? = some post' ∧
        post'.comments = [{ id := "0", content := "Super!",
                            author := CommentAuthor.proj "1" "Bob" }]) :=
  likePost_comment seed "0" "2" 0 2
    { id := "0", title := "Premier Post", content := "Contenu du premier post",
      author := Value.str "0", likes := ["1"],
      comments := [ { id := "0", content := "Super!",
                      author := CommentAuthor.proj "1" "Bob" } ] }
    { id := "2", name := "Charlie", email := "charlie@example.com",
      abonnement := [Value.str "0"], abonnes := [Value.str "0"], posts := none }
    (by decide) (by decide)

/-- C9. On the seed store no user has id "9", yet `likePost(postId = "0", userId = "9")`
returns post "0" and not `undefined`; the store is unchanged, so the post returned is not
updated: its `likes` are still `["1"]`, with no like of "9" recorded. -/
theorem likePost_missing_user_returns_post :
    (∀ u ∈ seed.users, u.id ≠ "9") ∧
    (likePost seed "0" "9" none).1 = some 0 ∧
    (likePost seed "0" "9" none).1 ≠ none ∧
    (likePost seed "0" "9" none).2 = seed ∧
    ((likePost seed "0" "9" none).2.posts[0]?).map (fun p => p.likes) = some ["1"] := by
  decide

/-- What `likePost` returns on any store: `undefined` exactly when `postId` matches no stored
post.  When the post is found it is returned: unchanged, with the store unchanged, when
`userId` matches no user; updated (the user's id among its `likes`) when the user is found
too.  In every not-found case the store is unchanged. -/
theorem likePost_result (st : Store) (postId userId : String) (comment : Option String) :
    ((likePost st postId userId comment).1 = none ↔ ∀ p ∈ st.posts, p.id ≠ postId) ∧
    ((∀ p ∈ st.posts, p.id ≠ postId) ∨ (∀ u ∈ st.users, u.id ≠ userId) →
      (likePost st postId userId comment).2 = st) ∧
    (∀ pi post, find (fun post => post.id == postId) st.posts = some (pi, post) →
      (likePost st postId userId comment).1 = some pi ∧
      ∃ post', (likePost st postId userId comment).2.posts[pi]? = some post' ∧
        post'.id = postId ∧
        ((∀ u ∈ st.users, u.id ≠ userId) → post' = post) ∧
        ((∃ u ∈ st.users, u.id = userId) → userId ∈ post'.likes)) := by
  have hfound : ∀ pi post, find (fun post => post.id == postId) st.posts = some (pi, post) →
      (likePost st postId userId comment).1 = some pi ∧
      ∃ post', (likePost st postId userId comment).2.posts[pi]? = some post' ∧
        post'.id = postId ∧
        ((∀ u ∈ st.users, u.id ≠ userId) → post' = post) ∧
        ((∃ u ∈ st.users, u.id = userId) → userId ∈ post'.likes) := by
    intro pi post hP
    obtain ⟨hpi, hp, -⟩ := find_eq_some _ _ _ _ hP
    have hpid : post.id = postId := by simpa using hp
    cases hU : find (fun user => user.id == userId) st.users with
    | none =>
      rw [likePost_user_not_found st _ _ _ pi post hP hU]
      refine ⟨rfl, post, hpi, hpid, fun _ => rfl, ?_⟩
      rintro ⟨a, ha, haid⟩
      rw [find_eq_none_iff] at hU
      have := hU a ha
      simp [haid] at this
    | some ru =>
      obtain ⟨ui, u⟩ := ru
      obtain ⟨hui, hu, -⟩ := find_eq_some _ _ _ _ hU
      have h2 := (likePost_find_after st postId userId comment pi ui post u hP hU).2
      rw [likePost_found st _ _ _ pi ui post u hP hU]
      refine ⟨rfl, liked post u comment, getElem?_set_self_of_some _ _ _ _ hpi, hpid, ?_,
        fun _ => h2⟩
      intro hno
      exact absurd (by simpa using hu) (hno u (List.getElem?_mem hui))
  refine ⟨⟨?_, ?_⟩, ?_, hfound⟩
  · intro h
    cases hP : find (fun post => post.id == postId) st.posts with
    | none =>
      rw [find_eq_none_iff] at hP
      intro p hp
      simpa using hP p hp
    | some rp =>
      rw [(hfound rp.1 rp.2 hP).1] at h
      cases h
  · intro h
    rw [likePost_post_not_found st _ _ _ (find_none_of_ne _ _ _ h)]
  · rintro (h | h)
    · rw [likePost_post_not_found st _ _ _ (find_none_of_ne _ _ _ h)]
    · cases hP : find (fun post => post.id == postId) st.posts with
      | none => rw [likePost_post_not_found st _ _ _ hP]
      | some rp =>
        rw [likePost_user_not_found st _ _ _ rp.1 rp.2 hP (find_none_of_ne _ _ _ h)]

theorem likePost_result_witness :
    (likePost seed "5" "0" none).1 = none ∧
    (likePost seed "0" "9" (some "Bien")).2 = seed ∧
    ((likePost seed "0" "2" none).1 = some 0 ∧
      ∃ post', (likePost seed "0" "2" none).2.posts[0]? = some post' ∧
        post'.id = "0" ∧
        ((∀ u ∈ seed.users, u.id ≠ "2") → post' =
          { id := "0", title := "Premier Post", content := "Contenu du premier post",
            author := Value.str "0", likes := ["1"],
            comments := [ { id := "0", content := "Super!",
                            author := CommentAuthor.proj "1" "Bob" } ] }) ∧
        ((∃ u ∈ seed.users, u.id = "2") → "2" ∈ post'.likes)) :=
  ⟨(likePost_result seed "5" "0" none).1.mpr (by decide),
   (likePost_result seed "0" "9" (some "Bien")).2.1 (Or.inr (by decide)),
   (likePost_result seed "0" "2" none).2.2 0 _ (by decide)⟩

/-- C10. When `postId` matches no stored post or `authorId` matches no stored user,
`addCommentToPost` returns `null` and the store, that is `users` and `posts` with every post and
its `comments`, is exactly as before. -/
theorem addCommentToPost_not_found_unchanged (st : Store) (postId content authorId : String)
    (h : (∀ p ∈ st.posts, p.id ≠ postId) ∨ (∀ u ∈ st.users, u.id ≠ authorId)) :
    addCommentToPost st postId content authorId = (none, st) := by
  apply addCommentToPost_not_found
  rcases h with h | h
  · exact Or.inl (find_none_of_ne _ _ _ h)
  · exact Or.inr (find_none_of_ne _ _ _ h)

theorem addCommentToPost_not_found_unchanged_witness :
    addCommentToPost seed "5" "Bonjour" "0" = (none, seed) ∧
    addCommentToPost seed "0" "Bonjour" "9" = (none, seed) :=
  ⟨addCommentToPost_not_found_unchanged seed "5" "Bonjour" "0" (Or.inl (by decide)),
   addCommentToPost_not_found_unchanged seed "0" "Bonjour" "9" (Or.inr (by decide))⟩

/-! ## `addCommentToPost` and `addUser` on found records -/

/-- C11. `addCommentToPost` on an existing post and an existing author appends exactly one
comment to the `comments` of that post, with the given content, id the decimal string of the
pre-call comment count plus one, and author the stored user object itself (a reference to it);
it returns that comment; `users`, the other posts, and the other fields of the post (its
`likes` among them) are unchanged. -/
theorem addCommentToPost_appends (st : Store) (postId content authorId : String)
    (pi ai : Nat) (post : Post) (author : User)
    (hP : find (fun post => post.id == postId) st.posts = some (pi, post))
    (hA : find (fun user => user.id == authorId) st.users = some (ai, author)) :
    st.users[ai]? = some author ∧ author.id = authorId ∧
    (addCommentToPost st postId content authorId).1 =
      some { id := toString (post.comments.length + 1), content := content,
             author := CommentAuthor.userRef ai } ∧
    (addCommentToPost st postId content authorId).2.users = st.users ∧
    (addCommentToPost st postId content authorId).2.posts.length = st.posts.length ∧
    (∀ j, j ≠ pi → (addCommentToPost st postId content authorId).2.posts[j]? = st.posts[j]?) ∧
    ∃ post', (addCommentToPost st postId content authorId).2.posts[pi]? = some post' ∧
      post'.comments = post.comments ++
        [{ id := toString (post.comments.length + 1), content := content,
           author := CommentAuthor.userRef ai }] ∧
      post'.likes = post.likes ∧ post'.id = post.id ∧ post'.title = post.title ∧
      post'.content = post.content ∧ post'.author = post.author := by
  obtain ⟨hpi, -, -⟩ := find_eq_some _ _ _ _ hP
  obtain ⟨hai, ha, -⟩ := find_eq_some _ _ _ _ hA
  rw [addCommentToPost_found st _ _ _ pi ai post author hP hA]
  refine ⟨hai, by simpa using ha, rfl, rfl, by simp, ?_, _,
    getElem?_set_self_of_some _ _ _ _ hpi, rfl, rfl, rfl, rfl, rfl, rfl⟩
  intro j hj
  simp [List.getElem?_set, Ne.symm hj]

theorem addCommentToPost_appends_witness :
    seed.users[2]? =
      some { id := "2", name := "Charlie", email := "charlie@example.com",
             abonnement := [Value.str "0"], abonnes := [Value.str "0"], posts := none } ∧
    "2" = "2" ∧
    (addCommentToPost seed "0" "Bonjour" "2").1 =
      some { id := toString (1 + 1), content := "Bonjour",
             author := CommentAuthor.userRef 2 } ∧
    (addCommentToPost seed "0" "Bonjour" "2").2.users = seed.users ∧
    (addCommentToPost seed "0" "Bonjour" "2").2.posts.length = seed.posts.length ∧
    (∀ j, j ≠ 0 → (addCommentToPost seed "0" "Bonjour" "2").2.posts[j]? = seed.posts[j]?) ∧
    ∃ post', (addCommentToPost seed "0" "Bonjour" "2").2.posts[0]? = some post' ∧
      post'.comments = [{ id := "0", content := "Super!",
                          author := CommentAuthor.proj "1" "Bob" }] ++
        [{ id := toString (1 + 1), content := "Bonjour",
           author := CommentAuthor.userRef 2 }] ∧
      post'.likes = ["1"] ∧ post'.id = "0" ∧ post'.title = "Premier Post" ∧
      post'.content = "Contenu du premier post" ∧ post'.author = Value.str "0" :=
  addCommentToPost_appends seed "0" "Bonjour" "2" 0 2
    { id := "0", title := "Premier Post", content := "Contenu du premier post",
      author := Value.str "0", likes := ["1"],
      comments := [ { id := "0", content := "Super!",
                      author := CommentAuthor.proj "1" "Bob" } ] }
    { id := "2", name := "Charlie", email := "charlie@example.com",
      abonnement := [Value.str "0"], abonnes := [Value.str "0"], posts := none }
    (by decide) (by decide)

/-- C12. `addUser` returns (a reference to) a user whose id is the decimal string of the
pre-call number of users, with the given name and email and empty `abonnement`, `abonnes` and
`posts`; afterwards `users` is the old array with that user appended and `posts` is
unchanged. -/
theorem addUser_appends (st : Store) (name email : String) :
    (addUser st name email).2.users[(addUser st name email).1]? =
      some { id := toString st.users.length, name := name, email := email,
             abonnement := [], abonnes := [], posts := some [] } ∧
    (addUser st name email).2.users =
      st.users ++ [{ id := toString st.users.length, name := name, email := email,
                     abonnement := [], abonnes := [], posts := some [] }] ∧
    (addUser st name email).2.posts = st.posts := by
  refine ⟨?_, rfl, rfl⟩
  simp [addUser]

/-! ## Reading twice, and what a read leaves unresolved -/

/-- C13. On the seed store, a first `user(id = "0")` returns Alice with
`abonnement = [Bob]`; it has overwritten her stored id list by that object list, so a second
`user(id = "0")` finds no id in it and returns her with `abonnement = []`: the two calls
return different values and leave different stores (`posts` and `abonnes` agree). -/
theorem user_second_call_differs :
    Reachable seed ∧
    (user seed "0").1 = some 0 ∧ (user (user seed "0").2 "0").1 = some 0 ∧
    ((user seed "0").2.users[0]?).map (fun u => u.abonnement) = some [Value.userRef 1] ∧
    ((user (user seed "0").2 "0").2.users[0]?).map (fun u => u.abonnement) = some [] ∧
    ((user seed "0").2.users[0]?).map (fun u => u.abonnes) =
      some [Value.userRef 1, Value.userRef 2] ∧
    ((user (user seed "0").2 "0").2.users[0]?).map (fun u => u.abonnes) =
      some [Value.userRef 1, Value.userRef 2] ∧
    ((user seed "0").2.users[0]?).map (fun u => u.posts) = some (some [0]) ∧
    ((user (user seed "0").2 "0").2.users[0]?).map (fun u => u.posts) = some (some [0]) ∧
    (user (user seed "0").2 "0").2 ≠ (user seed "0").2 := by
  refine ⟨⟨[], rfl⟩, ?_⟩
  decide

/-- C14, the claim as stated fails: after `user(id = "0")` on the seed store, the Bob object
that sits in the `abonnes` and `abonnement` of Alice is the stored object of user "1", and
this object has no `posts` field and still has the id strings `["0"]` as `abonnes` and as
`abonnement`: none of its three fields is resolved. -/
theorem user_seed_bob_unresolved :
    ((user seed "0").2.users[0]?).map (fun u => decide (Value.userRef 1 ∈ u.abonnes)) =
      some true ∧
    ((user seed "0").2.users[0]?).map (fun u => decide (Value.userRef 1 ∈ u.abonnement)) =
      some true ∧
    (user seed "0").2.users[1]? =
      some { id := "1", name := "Bob", email := "bob@example.com",
             abonnement := [Value.str "0"], abonnes := [Value.str "0"], posts := none } := by
  decide

/-- C14, amended. On the seed store `user(id = "0")` returns Alice, whose `posts` references
post "0" (authored by "0", one like from "1", one comment), whose `abonnement` is the Bob
object and whose `abonnes` is the Bob object followed by the Charlie object; the Bob object is
the stored object of user "1" as seeded, with id lists and no `posts` field. -/
theorem user_seed_alice :
    (user seed "0").1 = some 0 ∧
    (user seed "0").2.users[0]? =
      some { id := "0", name := "Alice", email := "alice@example.com",
             abonnement := [Value.userRef 1],
             abonnes := [Value.userRef 1, Value.userRef 2], posts := some [0] } ∧
    (user seed "0").2.posts[0]? =
      some { id := "0", title := "Premier Post", content := "Contenu du premier post",
             author := Value.str "0", likes := ["1"],
             comments := [ { id := "0", content := "Super!",
                             author := CommentAuthor.proj "1" "Bob" } ] } ∧
    ((user seed "0").2.users[1]?).map (fun u => (u.id, u.name)) = some ("1", "Bob") ∧
    (user seed "0").2.users[1]? = seed.users[1]? ∧
    (user seed "0").2.users[2]? = seed.users[2]? := by
  decide

/-- C15, the claim as stated fails: after `user(id = "0")` on the seed store, the `author` of
post "0", authored by user "0", is still the id string "0" and not a user object. -/
theorem user_seed_post_author_still_id :
    (seed.posts[0]?).map (fun p => p.author) = some (Value.str "0") ∧
    (user seed "0").1 = some 0 ∧
    ((user seed "0").2.posts[0]?).map (fun p => p.author) = some (Value.str "0") ∧
    ((user seed "0").2.posts[0]?).map (fun p => p.author) ≠ some (Value.userRef 0) := by
  decide

/-- C15, amended. `user(id)` leaves `posts` untouched: afterwards every stored post authored by
that user still has the id string as its `author`; what the resolver sets is the `posts` field
of the user object. -/
theorem user_keeps_post_authors (st : Store) (id : String) :
    (user st id).2.posts = st.posts ∧
    ∀ (i : Nat) (p : Post), st.posts[i]? = some p → p.author = Value.str id →
      ((user st id).2.posts[i]?).map (fun q => q.author) = some (Value.str id) := by
  refine ⟨user_posts st id, ?_⟩
  intro i p hp ha
  rw [user_posts, hp]
  simp [ha]

theorem user_keeps_post_authors_witness :
    (user seed "0").2.posts = seed.posts ∧
    ∀ (i : Nat) (p : Post), seed.posts[i]? = some p → p.author = Value.str "0" →
      ((user seed "0").2.posts[i]?).map (fun q => q.author) = some (Value.str "0") :=
  user_keeps_post_authors seed "0"

/-! ## The inverse relation between `abonnement` and `abonnes` -/

/-- What `find` by id saw before the two pushes of `followUser`, from what it sees after. -/
theorem find_before_follow (users : List User) (key : String) (i j k : Nat) (x' : User)
    (vi vj : Value)
    (h : find (fun user => user.id == key)
        (mutate (mutate users i (fun u => { u with abonnement := u.abonnement ++ [vi] }))
          j (fun u => { u with abonnes := u.abonnes ++ [vj] })) = some (k, x')) :
    ∃ x, find (fun user => user.id == key) users = some (k, x) ∧
      x'.id = x.id ∧
      x'.abonnement = (if k = i then x.abonnement ++ [vi] else x.abonnement) ∧
      x'.abonnes = (if k = j then x.abonnes ++ [vj] else x.abonnes) := by
  cases h0 : find (fun user => user.id == key) users with
  | none =>
    have h1 := find_mutate (fun user : User => user.id == key)
      (mutate users i (fun u => { u with abonnement := u.abonnement ++ [vi] })) j
      (fun u => { u with abonnes := u.abonnes ++ [vj] }) (fun _ => rfl)
    have h2 := find_mutate (fun user : User => user.id == key) users i
      (fun u => { u with abonnement := u.abonnement ++ [vi] }) (fun _ => rfl)
    rw [h1, h2, h0] at h
    cases h
  | some r =>
    obtain ⟨k0, x⟩ := r
    obtain ⟨x'', hx'', hid, -, -, -, hab, habs⟩ := find_after_follow users key i j k0 x vi vj h0
    rw [hx''] at h
    simp only [Option.some.injEq, Prod.mk.injEq] at h
    obtain ⟨rfl, rfl⟩ := h
    exact ⟨x, rfl, hid, hab, habs⟩

/-- Two lookups by id hit the same position exactly when the ids are equal. -/
theorem find_pos_eq_iff (users : List User) (A B : String) (k i : Nat) (a b : User)
    (hA : find (fun user => user.id == A) users = some (k, a))
    (hB : find (fun user => user.id == B) users = some (i, b)) : k = i ↔ A = B := by
  obtain ⟨hk, ha, -⟩ := find_eq_some _ _ _ _ hA
  obtain ⟨hi, hb, -⟩ := find_eq_some _ _ _ _ hB
  have haid : a.id = A := by simpa using ha
  have hbid : b.id = B := by simpa using hb
  constructor
  · rintro rfl
    rw [hk] at hi
    cases hi
    rw [← haid, hbid]
  · rintro rfl
    rw [hA] at hB
    cases hB
    rfl

theorem followUser_inverseById (st : Store) (followerId followedId : String)
    (hinv : InverseById st.users) :
    InverseById (followUser st followerId followedId).2.users := by
  cases hF : find (fun user => user.id == followerId) st.users with
  | none => rw [followUser_not_found st _ _ (Or.inl hF)]; exact hinv
  | some rf =>
    cases hG : find (fun user => user.id == followedId) st.users with
    | none => rw [followUser_not_found st _ _ (Or.inr hG)]; exact hinv
    | some rg =>
      obtain ⟨i, fu⟩ := rf
      obtain ⟨j, gu⟩ := rg
      by_cases hmem : Value.str gu.id ∈ fu.abonnement
      · rw [followUser_found_old st _ _ i j fu gu hF hG hmem]; exact hinv
      · rw [followUser_found_new st _ _ i j fu gu hF hG hmem]
        obtain ⟨-, hf, -⟩ := find_eq_some _ _ _ _ hF
        obtain ⟨-, hg, -⟩ := find_eq_some _ _ _ _ hG
        have hfid : fu.id = followerId := by simpa using hf
        have hgid : gu.id = followedId := by simpa using hg
        intro A B k l a' b' hA' hB'
        obtain ⟨a, hA, -, hab, -⟩ := find_before_follow st.users A i j k a' _ _ hA'
        obtain ⟨b, hB, -, -, habs⟩ := find_before_follow st.users B i j l b' _ _ hB'
        have hki := find_pos_eq_iff st.users A followerId k i a fu hA hF
        have hlj := find_pos_eq_iff st.users B followedId l j b gu hB hG
        have hold := hinv A B k l a b hA hB
        rw [hab, habs, hfid, hgid]
        by_cases h1 : k = i <;> by_cases h2 : l = j
        · simp [h1, h2, hki.mp h1, hlj.mp h2]
        · have hB2 : ¬ B = followedId := fun h => h2 (hlj.mpr h)
          simp [h1, h2, hold, hB2]
        · have hA2 : ¬ A = followerId := fun h => h1 (hki.mpr h)
          simp [h1, h2, hold, hA2]
        · simp [h1, h2, hold]

theorem inverseById_of_onObjects (users : List User) (h : InverseOnObjects users) :
    InverseById users := by
  intro A B i j a b hA hB
  obtain ⟨hi, ha, -⟩ := find_eq_some _ _ _ _ hA
  obtain ⟨hj, hb, -⟩ := find_eq_some _ _ _ _ hB
  have haid : a.id = A := by simpa using ha
  have hbid : b.id = B := by simpa using hb
  have := h a (List.getElem?_mem hi) b (List.getElem?_mem hj)
  rwa [haid, hbid] at this

theorem inverseOnObjects_of_byId (users : List User)
    (hnd : (users.map (fun u => u.id)).Nodup) (h : InverseById users) :
    InverseOnObjects users := by
  have hfind : ∀ a ∈ users, ∃ k, find (fun user => user.id == a.id) users = some (k, a) := by
    intro a ha
    obtain ⟨⟨k, a0⟩, hk⟩ := (find_isSome_iff (fun user : User => user.id == a.id) users).mpr
      ⟨a, ha, by simp⟩
    obtain ⟨hk0, hp, -⟩ := find_eq_some _ _ _ _ hk
    have heq : a0 = a :=
      List.inj_on_of_nodup_map hnd (List.getElem?_mem hk0) ha (by simpa using hp)
    exact ⟨k, heq ▸ hk⟩
  intro a ha b hb
  obtain ⟨k, hk⟩ := hfind a ha
  obtain ⟨l, hl⟩ := hfind b hb
  exact h a.id b.id k l a b hk hl

theorem followUser_user_ids (st : Store) (followerId followedId : String) :
    (followUser st followerId followedId).2.users.map (fun u => u.id) =
      st.users.map (fun u => u.id) := by
  unfold followUser
  split
  · split
    · simp only
      refine Eq.trans (map_mutate (fun u : User => u.id) _ _ _ ?_)
        (map_mutate (fun u : User => u.id) _ _ _ ?_) <;> intros <;> rfl
    · rfl
  · rfl

/-- C16. `followUser` preserves the inverse relation between `abonnement` and `abonnes`, for
any arguments (a self-follow included) and whatever else the follow lists hold: if for all
users `A` and `B`, addressed by id as the resolvers address them, the id of `B` is in the
`abonnement` of `A` exactly when the id of `A` is in the `abonnes` of `B`, the same holds after
the call; and when the stored ids are pairwise distinct, as they are in every store of the
process, the equivalence over all stored user objects is preserved, and so is the
distinctness. -/
theorem followUser_preserves_inverse (st : Store) (followerId followedId : String) :
    (InverseById st.users → InverseById (followUser st followerId followedId).2.users) ∧
    ((st.users.map (fun u => u.id)).Nodup → InverseOnObjects st.users →
      InverseOnObjects (followUser st followerId followedId).2.users ∧
      ((followUser st followerId followedId).2.users.map (fun u => u.id)).Nodup) := by
  refine ⟨followUser_inverseById st followerId followedId, ?_⟩
  intro hnd hinv
  have hnd' : ((followUser st followerId followedId).2.users.map (fun u => u.id)).Nodup := by
    rw [followUser_user_ids]; exact hnd
  exact ⟨inverseOnObjects_of_byId _ hnd'
    (followUser_inverseById st _ _ (inverseById_of_onObjects _ hinv)), hnd'⟩

theorem followUser_preserves_inverse_witness :
    InverseById (followUser (Store.mk
      [ { id := "0", name := "Alice", email := "alice@example.com",
          abonnement := [Value.str "1"], abonnes := [], posts := none },
        { id := "1", name := "Bob", email := "bob@example.com",
          abonnement := [], abonnes := [Value.str "0"], posts := none } ] []) "1" "1").2.users ∧
    (InverseOnObjects (followUser (Store.mk
      [ { id := "0", name := "Alice", email := "alice@example.com",
          abonnement := [Value.str "1"], abonnes := [], posts := none },
        { id := "1", name := "Bob", email := "bob@example.com",
          abonnement := [], abonnes := [Value.str "0"], posts := none } ] []) "1" "1").2.users ∧
     ((followUser (Store.mk
      [ { id := "0", name := "Alice", email := "alice@example.com",
          abonnement := [Value.str "1"], abonnes := [], posts := none },
        { id := "1", name := "Bob", email := "bob@example.com",
          abonnement := [], abonnes := [Value.str "0"], posts := none } ] []) "1" "1").2.users.map
        (fun u => u.id)).Nodup) :=
  ⟨(followUser_preserves_inverse _ "1" "1").1
     (inverseById_of_onObjects _ (by unfold InverseOnObjects; decide)),
   (followUser_preserves_inverse _ "1" "1").2 (by decide)
     (by unfold InverseOnObjects; decide)⟩

/-! ## Decimal strings -/

theorem digitChar_value (k : Nat) (h : k < 10) : (Nat.digitChar k).toNat - 48 = k := by
  interval_cases k <;> rfl

theorem toDigitsCore_value (fuel : Nat) : ∀ (n : Nat) (ds : List Char), n < fuel →
    ∃ pre, Nat.toDigitsCore 10 fuel n ds = pre ++ ds ∧ decimalValue pre = n := by
  induction fuel with
  | zero => intro n ds h; omega
  | succ fuel ih =>
    intro n ds h
    unfold Nat.toDigitsCore
    simp only
    split
    · next h0 =>
      refine ⟨[Nat.digitChar (n % 10)], rfl, ?_⟩
      simp only [decimalValue, List.foldl_cons, List.foldl_nil, Nat.zero_mul, Nat.zero_add]
      rw [digitChar_value _ (Nat.mod_lt _ (by decide))]
      omega
    · next h0 =>
      obtain ⟨pre, hpre, hval⟩ := ih (n / 10) (Nat.digitChar (n % 10) :: ds) (by omega)
      refine ⟨pre ++ [Nat.digitChar (n % 10)], by simp [hpre], ?_⟩
      simp only [decimalValue, List.foldl_append, List.foldl_cons, List.foldl_nil] at hval ⊢
      rw [hval, digitChar_value _ (Nat.mod_lt _ (by decide))]
      omega

theorem decimalValue_toString (n : Nat) : decimalValue (toString n).data = n := by
  obtain ⟨pre, hpre, hval⟩ := toDigitsCore_value (n + 1) n [] (by omega)
  have h : (toString n).data = pre := by
    show (Nat.repr n).data = pre
    simp [Nat.repr, Nat.toDigits, hpre, List.asString]
  rw [h, hval]

/-- `String(n)` determines `n`: distinct numbers have distinct decimal strings. -/
theorem toString_nat_injective (n m : Nat) (h : toString n = toString m) : n = m := by
  rw [← decimalValue_toString n, ← decimalValue_toString m, h]

/-! ## Ids are positions -/

theorem map_set_of_some {α β : Type} (g : α → β) (l : List α) (i : Nat) (a b : α)
    (h : l[i]? = some a) (hg : g b = g a) : (l.set i b).map g = l.map g := by
  rw [← mutate_eq_set l i (fun _ => b) a h]
  apply map_mutate
  intro a' ha'
  rw [h] at ha'
  cases ha'
  exact hg

/-- The ids in `users` after an operation: unchanged, except that `addUser` appends the decimal
string of the old length. -/
theorem step_user_ids (st : Store) (op : Op) :
    (step st op).users.map (fun u => u.id) = st.users.map (fun u => u.id) ∨
    (step st op).users.map (fun u => u.id) =
      st.users.map (fun u => u.id) ++ [toString st.users.length] := by
  cases op with
  | user id =>
    left
    simp only [step]
    cases h : find (fun u => u.id == id) st.users with
    | none => rw [user_not_found st id h]
    | some r =>
      obtain ⟨i, u⟩ := r
      obtain ⟨hi, -, -⟩ := find_eq_some _ _ _ _ h
      rw [user_found st id i u h]
      exact map_set_of_some _ _ _ u _ hi rfl
  | addPost title content authorId => left; rfl
  | likePost postId userId comment => left; simp only [step, likePost_users]
  | addUser name email => right; simp [step, addUser]
  | addCommentToPost postId content authorId => left; simp only [step, addCommentToPost_users]
  | followUser followerId followedId => left; exact followUser_user_ids st _ _

/-- The ids in `posts` after an operation: unchanged, except that `addPost` appends the decimal
string of the old length. -/
theorem step_post_ids (st : Store) (op : Op) :
    (step st op).posts.map (fun p => p.id) = st.posts.map (fun p => p.id) ∨
    (step st op).posts.map (fun p => p.id) =
      st.posts.map (fun p => p.id) ++ [toString st.posts.length] := by
  cases op with
  | user id => left; simp only [step, user_posts]
  | addPost title content authorId => right; simp [step, addPost]
  | likePost postId userId comment =>
    left
    simp only [step]
    cases hP : find (fun post => post.id == postId) st.posts with
    | none => rw [likePost_post_not_found st _ _ _ hP]
    | some rp =>
      obtain ⟨pi, post⟩ := rp
      cases hU : find (fun user => user.id == userId) st.users with
      | none => rw [likePost_user_not_found st _ _ _ pi post hP hU]
      | some ru =>
        obtain ⟨ui, u⟩ := ru
        obtain ⟨hpi, -, -⟩ := find_eq_some _ _ _ _ hP
        rw [likePost_found st _ _ _ pi ui post u hP hU]
        exact map_set_of_some _ _ _ post _ hpi rfl
  | addUser name email => left; rfl
  | addCommentToPost postId content authorId =>
    left
    simp only [step]
    cases hP : find (fun post => post.id == postId) st.posts with
    | none => rw [addCommentToPost_not_found st _ _ _ (Or.inl hP)]
    | some rp =>
      obtain ⟨pi, post⟩ := rp
      cases hU : find (fun user => user.id == authorId) st.users with
      | none => rw [addCommentToPost_not_found st _ _ _ (Or.inr hU)]
      | some ru =>
        obtain ⟨ai, author⟩ := ru
        obtain ⟨hpi, -, -⟩ := find_eq_some _ _ _ _ hP
        rw [addCommentToPost_found st _ _ _ pi ai post author hP hU]
        exact map_set_of_some _ _ _ post _ hpi rfl
  | followUser followerId followedId => left; simp only [step, followUser_posts]

/-- A list of ids that lists the decimal strings of the positions stays so when left alone or
extended by the decimal string of its length. -/
theorem ids_by_position_step (ids ids' : List String)
    (h : ids = (List.range ids.length).map toString)
    (h' : ids' = ids ∨ ids' = ids ++ [toString ids.length]) :
    ids' = (List.range ids'.length).map toString := by
  rcases h' with rfl | rfl
  · exact h
  · rw [List.length_append, List.length_singleton, List.range_succ, List.map_append, ← h]
    rfl

theorem reachable_ids_by_position (st : Store) (hst : Reachable st) :
    st.users.map (fun u => u.id) = (List.range st.users.length).map toString ∧
    st.posts.map (fun p => p.id) = (List.range st.posts.length).map toString := by
  refine reachable_induction
    (fun st => st.users.map (fun u => u.id) = (List.range st.users.length).map toString ∧
      st.posts.map (fun p => p.id) = (List.range st.posts.length).map toString)
    (by decide) ?_ st hst
  intro st op ⟨hu, hp⟩
  constructor
  · have := ids_by_position_step (st.users.map (fun u => u.id))
      ((step st op).users.map (fun u => u.id)) (by simpa using hu)
      (by simpa using step_user_ids st op)
    simpa using this
  · have := ids_by_position_step (st.posts.map (fun p => p.id))
      ((step st op).posts.map (fun p => p.id)) (by simpa using hp)
      (by simpa using step_post_ids st op)
    simpa using this

theorem id_at_position {α : Type} (key : α → String) (l : List α)
    (h : l.map key = (List.range l.length).map toString) (i : Nat) (a : α)
    (ha : l[i]? = some a) : key a = toString i := by
  have hlt : i < l.length := by
    rcases Nat.lt_or_ge i l.length with h1 | h1
    · exact h1
    · rw [List.getElem?_eq_none h1] at ha
      cases ha
  have h1 : (l.map key)[i]? = some (key a) := by simp [ha]
  rw [h] at h1
  simpa [List.getElem?_range hlt] using h1.symm

theorem ids_nodup {α : Type} (key : α → String) (l : List α)
    (h : l.map key = (List.range l.length).map toString) : (l.map key).Nodup := by
  rw [h]
  exact (List.nodup_range _).map (fun n m hnm => toString_nat_injective n m hnm)

/-- C17. In every store reachable from the seed data, the user at position `i` of `users` has
id the decimal string of `i`, and so has the post at position `i` of `posts`; hence the ids
are pairwise distinct within each collection and two records with the same id are the same
record (a lookup by id finds at most one). -/
theorem ids_are_positions (st : Store) (hst : Reachable st) :
    (∀ (i : Nat) (u : User), st.users[i]? = some u → u.id = toString i) ∧
    (∀ (i : Nat) (p : Post), st.posts[i]? = some p → p.id = toString i) ∧
    (st.users.map (fun u => u.id)).Nodup ∧
    (st.posts.map (fun p => p.id)).Nodup ∧
    (∀ (i j : Nat) (u v : User), st.users[i]? = some u → st.users[j]? = some v →
      u.id = v.id → i = j) ∧
    (∀ (i j : Nat) (p q : Post), st.posts[i]? = some p → st.posts[j]? = some q →
      p.id = q.id → i = j) := by
  obtain ⟨hu, hp⟩ := reachable_ids_by_position st hst
  have hui := id_at_position (fun u : User => u.id) st.users hu
  have hpi := id_at_position (fun p : Post => p.id) st.posts hp
  refine ⟨hui, hpi, ids_nodup _ _ hu, ids_nodup _ _ hp, ?_, ?_⟩
  · intro i j u v h1 h2 h
    have e1 := hui i u h1
    have e2 := hui j v h2
    simp only [] at e1 e2
    exact toString_nat_injective i j (by rw [← e1, ← e2, h])
  · intro i j p q h1 h2 h
    have e1 := hpi i p h1
    have e2 := hpi j q h2
    simp only [] at e1 e2
    exact toString_nat_injective i j (by rw [← e1, ← e2, h])

theorem ids_are_positions_witness :
    (∀ (i : Nat) (u : User),
      (run seed [Op.addUser "Dora" "dora@example.com", Op.addPost "T" "C" "3",
        Op.user "0", Op.followUser "3" "0"]).users[i]? = some u → u.id = toString i) ∧
    (∀ (i : Nat) (p : Post),
      (run seed [Op.addUser "Dora" "dora@example.com", Op.addPost "T" "C" "3",
        Op.user "0", Op.followUser "3" "0"]).posts[i]? = some p → p.id = toString i) ∧
    ((run seed [Op.addUser "Dora" "dora@example.com", Op.addPost "T" "C" "3",
        Op.user "0", Op.followUser "3" "0"]).users.map (fun u => u.id)).Nodup ∧
    ((run seed [Op.addUser "Dora" "dora@example.com", Op.addPost "T" "C" "3",
        Op.user "0", Op.followUser "3" "0"]).posts.map (fun p => p.id)).Nodup ∧
    (∀ (i j : Nat) (u v : User),
      (run seed [Op.addUser "Dora" "dora@example.com", Op.addPost "T" "C" "3",
        Op.user "0", Op.followUser "3" "0"]).users[i]? = some u →
      (run seed [Op.addUser "Dora" "dora@example.com", Op.addPost "T" "C" "3",
        Op.user "0", Op.followUser "3" "0"]).users[j]? = some v →
      u.id = v.id → i = j) ∧
    (∀ (i j : Nat) (p q : Post),
      (run seed [Op.addUser "Dora" "dora@example.com", Op.addPost "T" "C" "3",
        Op.user "0", Op.followUser "3" "0"]).posts[i]? = some p →
      (run seed [Op.addUser "Dora" "dora@example.com", Op.addPost "T" "C" "3",
        Op.user "0", Op.followUser "3" "0"]).posts[j]? = some q →
      p.id = q.id → i = j) :=
  ids_are_positions _ ⟨_, rfl⟩

/-! ## Comment ids within a post -/

/-- The `comments` of a post after an operation: empty (a new post), or the `comments` of a post
of the old store, possibly with one comment pushed whose id is the decimal string of the old
length plus one. -/
theorem step_post_comments (st : Store) (op : Op) :
    ∀ p' ∈ (step st op).posts, p'.comments = [] ∨
      ∃ post ∈ st.posts, p'.comments = post.comments ∨
        ∃ c : Comment, c.id = toString (post.comments.length + 1) ∧
          p'.comments = post.comments ++ [c] := by
  intro p' hp
  cases op with
  | user id =>
    simp only [step, user_posts] at hp
    exact Or.inr ⟨p', hp, Or.inl rfl⟩
  | addPost title content authorId =>
    simp only [step, addPost, List.mem_append, List.mem_singleton] at hp
    rcases hp with hp | rfl
    · exact Or.inr ⟨p', hp, Or.inl rfl⟩
    · exact Or.inl rfl
  | likePost postId userId comment =>
    simp only [step] at hp
    cases hP : find (fun post => post.id == postId) st.posts with
    | none =>
      rw [likePost_post_not_found st _ _ _ hP] at hp
      exact Or.inr ⟨p', hp, Or.inl rfl⟩
    | some rp =>
      obtain ⟨pi, post⟩ := rp
      cases hU : find (fun user => user.id == userId) st.users with
      | none =>
        rw [likePost_user_not_found st _ _ _ pi post hP hU] at hp
        exact Or.inr ⟨p', hp, Or.inl rfl⟩
      | some ru =>
        obtain ⟨ui, u⟩ := ru
        rw [likePost_found st _ _ _ pi ui post u hP hU] at hp
        obtain ⟨hpi, -, -⟩ := find_eq_some _ _ _ _ hP
        rcases List.mem_or_eq_of_mem_set hp with hp | rfl
        · exact Or.inr ⟨p', hp, Or.inl rfl⟩
        · refine Or.inr ⟨post, List.getElem?_mem hpi, ?_⟩
          simp only [liked]
          split
          · exact Or.inr ⟨_, rfl, rfl⟩
          · exact Or.inl rfl
  | addUser name email =>
    simp only [step, addUser] at hp
    exact Or.inr ⟨p', hp, Or.inl rfl⟩
  | addCommentToPost postId content authorId =>
    simp only [step] at hp
    cases hP : find (fun post => post.id == postId) st.posts with
    | none =>
      rw [addCommentToPost_not_found st _ _ _ (Or.inl hP)] at hp
      exact Or.inr ⟨p', hp, Or.inl rfl⟩
    | some rp =>
      obtain ⟨pi, post⟩ := rp
      cases hU : find (fun user => user.id == authorId) st.users with
      | none =>
        rw [addCommentToPost_not_found st _ _ _ (Or.inr hU)] at hp
        exact Or.inr ⟨p', hp, Or.inl rfl⟩
      | some ru =>
        obtain ⟨ai, author⟩ := ru
        rw [addCommentToPost_found st _ _ _ pi ai post author hP hU] at hp
        obtain ⟨hpi, -, -⟩ := find_eq_some _ _ _ _ hP
        rcases List.mem_or_eq_of_mem_set hp with hp | rfl
        · exact Or.inr ⟨p', hp, Or.inl rfl⟩
        · exact Or.inr ⟨post, List.getElem?_mem hpi, Or.inr ⟨_, rfl, rfl⟩⟩
  | followUser followerId followedId =>
    simp only [step, followUser_posts] at hp
    exact Or.inr ⟨p', hp, Or.inl rfl⟩

theorem commentIds_push (cs : List Comment) (c : Comment) (h : CommentIdsByPosition cs)
    (hc : c.id = toString (cs.length + 1)) : CommentIdsByPosition (cs ++ [c]) := by
  intro k c' hk
  rcases Nat.lt_or_ge k cs.length with hlt | hge
  · rw [List.getElem?_append_left hlt] at hk
    exact h k c' hk
  · rw [List.getElem?_append_right hge] at hk
    have hk0 : k - cs.length = 0 := by
      rcases Nat.eq_zero_or_pos (k - cs.length) with h0 | h0
      · exact h0
      · rw [List.getElem?_eq_none (by simp only [List.length_singleton]; omega)] at hk
        cases hk
    rw [hk0] at hk
    simp only [List.getElem?_cons_zero, Option.some.injEq] at hk
    subst hk
    left
    rw [hc]
    congr 1
    omega

theorem commentIds_nodup (cs : List Comment) (h : CommentIdsByPosition cs) :
    (cs.map (fun c => c.id)).Nodup := by
  rw [List.nodup_iff_getElem?_ne_getElem?]
  intro i j hij hj
  simp only [List.length_map] at hj
  have hi : i < cs.length := by omega
  simp only [List.getElem?_map, List.getElem?_eq_getElem hi, List.getElem?_eq_getElem hj,
    Option.map_some', ne_eq, Option.some.injEq]
  intro heq
  have h1 := h i cs[i] (List.getElem?_eq_getElem hi)
  have h2 := h j cs[j] (List.getElem?_eq_getElem hj)
  rcases h2 with h2 | ⟨h2, -⟩
  · rcases h1 with h1 | ⟨-, h1⟩
    · have := toString_nat_injective (i + 1) (j + 1) (h1.symm.trans (heq.trans h2))
      omega
    · have := toString_nat_injective 0 (j + 1) (h1.symm.trans (heq.trans h2))
      omega
  · omega

theorem reachable_commentIds (st : Store) (hst : Reachable st) :
    ∀ p ∈ st.posts, CommentIdsByPosition p.comments := by
  refine reachable_induction (fun st => ∀ p ∈ st.posts, CommentIdsByPosition p.comments)
    ?_ ?_ st hst
  · intro p hp
    simp only [seed, List.mem_singleton] at hp
    subst hp
    intro k c hk
    cases k with
    | zero =>
      simp only [List.getElem?_cons_zero, Option.some.injEq] at hk
      subst hk
      exact Or.inr ⟨rfl, by decide⟩
    | succ k => simp at hk
  · intro st op ih p' hp'
    rcases step_post_comments st op p' hp' with h | ⟨post, hpost, h | ⟨c, hc, h⟩⟩
    · rw [h]
      intro k c hk
      simp at hk
    · rw [h]
      exact ih post hpost
    · rw [h]
      exact commentIds_push _ c (ih post hpost) hc

/-- C18. In every store reachable from the seed data by any sequence of operations, the
comment ids within any single post are pairwise distinct (the seeded comment has id "0", every
pushed comment has the comment count plus one as id). -/
theorem comment_ids_distinct (st : Store) (hst : Reachable st) :
    ∀ p ∈ st.posts, (p.comments.map (fun c => c.id)).Nodup :=
  fun p hp => commentIds_nodup _ (reachable_commentIds st hst p hp)

theorem comment_ids_distinct_witness :
    Reachable (run seed [Op.likePost "0" "0" (some "Bravo"),
        Op.addCommentToPost "0" "Merci" "1", Op.addPost "T" "C" "2",
        Op.likePost "1" "2" (some "Oui")]) ∧
    ∀ p ∈ (run seed [Op.likePost "0" "0" (some "Bravo"),
        Op.addCommentToPost "0" "Merci" "1", Op.addPost "T" "C" "2",
        Op.likePost "1" "2" (some "Oui")]).posts,
      (p.comments.map (fun c => c.id)).Nodup :=
  ⟨⟨_, rfl⟩, comment_ids_distinct _ ⟨_, rfl⟩⟩

/-! ## Mutations only append -/

theorem getElem?_append_of_some {α : Type} (l t : List α) (i : Nat) (a : α)
    (h : l[i]? = some a) : (l ++ t)[i]? = some a := by
  have hlt : i < l.length := by
    rcases Nat.lt_or_ge i l.length with h1 | h1
    · exact h1
    · rw [List.getElem?_eq_none h1] at h
      cases h
  rw [List.getElem?_append_left hlt]
  exact h

/-- Every user object is kept in place by `followUser`, with the same id, name and email, and
with follow lists that extend the old ones. -/
theorem followUser_users_grow (st : Store) (followerId followedId : String) (k : Nat)
    (u : User) (h : st.users[k]? = some u) :
    ∃ u', (followUser st followerId followedId).2.users[k]? = some u' ∧
      u'.id = u.id ∧ u'.name = u.name ∧ u'.email = u.email ∧
      u.abonnement <+: u'.abonnement ∧ u.abonnes <+: u'.abonnes := by
  have hsame : ∃ u', st.users[k]? = some u' ∧
      u'.id = u.id ∧ u'.name = u.name ∧ u'.email = u.email ∧
      u.abonnement <+: u'.abonnement ∧ u.abonnes <+: u'.abonnes :=
    ⟨u, h, rfl, rfl, rfl, ⟨[], by simp⟩, ⟨[], by simp⟩⟩
  cases hF : find (fun user => user.id == followerId) st.users with
  | none => rw [followUser_not_found st _ _ (Or.inl hF)]; exact hsame
  | some rf =>
    cases hG : find (fun user => user.id == followedId) st.users with
    | none => rw [followUser_not_found st _ _ (Or.inr hG)]; exact hsame
    | some rg =>
      obtain ⟨i, fu⟩ := rf
      obtain ⟨j, gu⟩ := rg
      by_cases hmem : Value.str gu.id ∈ fu.abonnement
      · rw [followUser_found_old st _ _ i j fu gu hF hG hmem]; exact hsame
      · rw [followUser_found_new st _ _ i j fu gu hF hG hmem]
        simp only [getElem?_mutate, h]
        by_cases h1 : i = k <;> by_cases h2 : j = k <;>
          simp [h1, h2]

/-- Replacing the post at one position by a post that extends it keeps every post in place,
with the same id, title, content and author and with `likes` and `comments` that extend the
old ones. -/
theorem posts_grow_set (posts : List Post) (pi : Nat) (post new : Post)
    (hpi : posts[pi]? = some post)
    (hnew : new.id = post.id ∧ new.title = post.title ∧ new.content = post.content ∧
      new.author = post.author ∧ post.likes <+: new.likes ∧ post.comments <+: new.comments)
    (k : Nat) (p : Post) (h : posts[k]? = some p) :
    ∃ p', (posts.set pi new)[k]? = some p' ∧
      p'.id = p.id ∧ p'.title = p.title ∧ p'.content = p.content ∧ p'.author = p.author ∧
      p.likes <+: p'.likes ∧ p.comments <+: p'.comments := by
  by_cases hk : pi = k
  · subst hk
    rw [hpi] at h
    cases h
    exact ⟨new, getElem?_set_self_of_some _ _ _ _ hpi, hnew⟩
  · refine ⟨p, ?_, rfl, rfl, rfl, rfl, ⟨[], by simp⟩, ⟨[], by simp⟩⟩
    rw [List.getElem?_set_ne hk]
    exact h

/-- C19. Every mutation (`addPost`, `likePost`, `addUser`, `addCommentToPost`, `followUser`)
only appends: every user and every post of the pre-call store is still at its position
afterwards, with the same id, name and email (resp. id, title, content and author), and each
of its lists `abonnement`, `abonnes` (resp. `likes`, `comments`) starts with its pre-call
value. -/
theorem mutations_only_append (st : Store) (op : Op) (hop : op.isMutation = true) :
    (∀ (i : Nat) (u : User), st.users[i]? = some u →
      ∃ u', (step st op).users[i]? = some u' ∧
        u'.id = u.id ∧ u'.name = u.name ∧ u'.email = u.email ∧
        u.abonnement <+: u'.abonnement ∧ u.abonnes <+: u'.abonnes) ∧
    (∀ (i : Nat) (p : Post), st.posts[i]? = some p →
      ∃ p', (step st op).posts[i]? = some p' ∧
        p'.id = p.id ∧ p'.title = p.title ∧ p'.content = p.content ∧ p'.author = p.author ∧
        p.likes <+: p'.likes ∧ p.comments <+: p'.comments) := by
  have usame : ∀ (i : Nat) (u : User), st.users[i]? = some u →
      ∃ u', st.users[i]? = some u' ∧
        u'.id = u.id ∧ u'.name = u.name ∧ u'.email = u.email ∧
        u.abonnement <+: u'.abonnement ∧ u.abonnes <+: u'.abonnes :=
    fun i u h => ⟨u, h, rfl, rfl, rfl, ⟨[], by simp⟩, ⟨[], by simp⟩⟩
  have psame : ∀ (i : Nat) (p : Post), st.posts[i]? = some p →
      ∃ p', st.posts[i]? = some p' ∧
        p'.id = p.id ∧ p'.title = p.title ∧ p'.content = p.content ∧ p'.author = p.author ∧
        p.likes <+: p'.likes ∧ p.comments <+: p'.comments :=
    fun i p h => ⟨p, h, rfl, rfl, rfl, rfl, ⟨[], by simp⟩, ⟨[], by simp⟩⟩
  cases op with
  | user id => simp [Op.isMutation] at hop
  | addPost title content authorId =>
    refine ⟨usame, ?_⟩
    intro i p h
    exact ⟨p, getElem?_append_of_some _ _ _ _ h, rfl, rfl, rfl, rfl, ⟨[], by simp⟩,
      ⟨[], by simp⟩⟩
  | likePost postId userId comment =>
    constructor
    · simp only [step, likePost_users]
      exact usame
    · simp only [step]
      cases hP : find (fun post => post.id == postId) st.posts with
      | none => rw [likePost_post_not_found st _ _ _ hP]; exact psame
      | some rp =>
        obtain ⟨pi, post⟩ := rp
        cases hU : find (fun user => user.id == userId) st.users with
        | none => rw [likePost_user_not_found st _ _ _ pi post hP hU]; exact psame
        | some ru =>
          obtain ⟨ui, u⟩ := ru
          obtain ⟨hpi, -, -⟩ := find_eq_some _ _ _ _ hP
          rw [likePost_found st _ _ _ pi ui post u hP hU]
          refine posts_grow_set st.posts pi post _ hpi ⟨rfl, rfl, rfl, rfl, ?_, ?_⟩
          · simp only [liked]
            split
            · exact ⟨[], by simp⟩
            · exact ⟨[u.id], rfl⟩
          · simp only [liked]
            split
            · exact ⟨_, rfl⟩
            · exact ⟨[], by simp⟩
  | addUser name email =>
    refine ⟨?_, psame⟩
    intro i u h
    exact ⟨u, getElem?_append_of_some _ _ _ _ h, rfl, rfl, rfl, ⟨[], by simp⟩, ⟨[], by simp⟩⟩
  | addCommentToPost postId content authorId =>
    constructor
    · simp only [step, addCommentToPost_users]
      exact usame
    · simp only [step]
      cases hP : find (fun post => post.id == postId) st.posts with
      | none => rw [addCommentToPost_not_found st _ _ _ (Or.inl hP)]; exact psame
      | some rp =>
        obtain ⟨pi, post⟩ := rp
        cases hU : find (fun user => user.id == authorId) st.users with
        | none => rw [addCommentToPost_not_found st _ _ _ (Or.inr hU)]; exact psame
        | some ru =>
          obtain ⟨ai, author⟩ := ru
          obtain ⟨hpi, -, -⟩ := find_eq_some _ _ _ _ hP
          rw [addCommentToPost_found st _ _ _ pi ai post author hP hU]
          exact posts_grow_set st.posts pi post _ hpi
            ⟨rfl, rfl, rfl, rfl, ⟨[], by simp⟩, ⟨_, rfl⟩⟩
  | followUser followerId followedId =>
    constructor
    · intro i u h
      exact followUser_users_grow st followerId followedId i u h
    · simp only [step, followUser_posts]
      exact psame

theorem mutations_only_append_witness :
    (∀ (i : Nat) (u : User), seed.users[i]? = some u →
      ∃ u', (step seed (Op.followUser "0" "2")).users[i]? = some u' ∧
        u'.id = u.id ∧ u'.name = u.name ∧ u'.email = u.email ∧
        u.abonnement <+: u'.abonnement ∧ u.abonnes <+: u'.abonnes) ∧
    (∀ (i : Nat) (p : Post), seed.posts[i]? = some p →
      ∃ p', (step seed (Op.followUser "0" "2")).posts[i]? = some p' ∧
        p'.id = p.id ∧ p'.title = p.title ∧ p'.content = p.content ∧ p'.author = p.author ∧
        p.likes <+: p'.likes ∧ p.comments <+: p'.comments) :=
  mutations_only_append seed (Op.followUser "0" "2") rfl

/-! ## Duplicates in the follow lists -/

/-- C20. Two reachable stores in which a follow list holds the same id twice.  From the seed,
`followUser("0", "2")` finds "2" absent from the `abonnement` of "0" and pushes "0" onto the
seeded `abonnes` `["0"]` of "2".  From the seed, `user("1")` overwrites the `abonnement` of "1"
by user objects, so `followUser("1", "0")` no longer finds the id "0" in it and pushes "1" onto
the `abonnes` `["1"]` of "0" (and "0" onto the `abonnement` of "1", next to the object of
user "0"). -/
theorem follow_lists_duplicate :
    Reachable (run seed [Op.followUser "0" "2"]) ∧
    ((run seed [Op.followUser "0" "2"]).users[2]?).map (fun u => u.abonnes) =
      some [Value.str "0", Value.str "0"] ∧
    Reachable (run seed [Op.user "1", Op.followUser "1" "0"]) ∧
    ((run seed [Op.user "1", Op.followUser "1" "0"]).users[0]?).map (fun u => u.abonnes) =
      some [Value.str "1", Value.str "1"] ∧
    ((run seed [Op.user "1", Op.followUser "1" "0"]).users[1]?).map (fun u => u.abonnement) =
      some [Value.userRef 0, Value.str "0"] := by
  refine ⟨⟨_, rfl⟩, ?_, ⟨_, rfl⟩, ?_, ?_⟩ <;> decide

end SocialGraph
